import Mathlib

/-!
Verification development for the anima-server social simulation core.

The Python sources are embedded shallowly: pure functions become Lean
functions, the Neo4j graph and the in-memory post pool become explicit
state values threaded through the operations, clock reads (`datetime.now`)
and fresh UUIDs (`uuid4()`) become explicit arguments, and code that can
raise returns `Except`.  String manipulation from Python (`str.strip`,
`str.replace`, slicing, lexicographic comparison, stable `list.sort`) is
modelled on character lists, which is exact for the single-character
patterns the code uses.
-/

/-- Python `'\n'` to space replacement on one character
(`str.replace("\n", " ")` replaces single characters, so a character map
is exact). -/
def nlToSpace (c : Char) : Char := if c = '\n' then ' ' else c

/-- Python `str.strip` on a character list: drop leading and trailing
whitespace. -/
def pyStripChars (cs : List Char) : List Char :=
  ((cs.dropWhile Char.isWhitespace).reverse.dropWhile Char.isWhitespace).reverse

/-- Python `str.strip`. -/
def pyStrip (s : String) : String := String.mk (pyStripChars s.data)

/-- `PerceptionService._safe_text`: `None` becomes `""`, otherwise
`str(value).replace("\n", " ").strip()`. -/
def safeText : Option String → String
  | none => ""
  | some s => String.mk (pyStripChars (s.data.map nlToSpace))

/-- Python string `<=` (lexicographic by code point) on character lists. -/
def lexLe : List Char → List Char → Bool
  | [], _ => true
  | _ :: _, [] => false
  | a :: as, b :: bs => if a = b then lexLe as bs else decide (a < b)

/-- Python string `<=` (lexicographic by code point). -/
def strLe (a b : String) : Bool := lexLe a.data b.data

/-- Stable insertion of one element into a sorted list (ties keep the
inserted element first, matching where Python's stable sort would leave
an originally-earlier element). -/
def insertAsc (le : α → α → Bool) (x : α) : List α → List α
  | [] => [x]
  | y :: ys => if le x y then x :: y :: ys else y :: insertAsc le x ys

/-- Stable sort; agrees with Python's stable `list.sort` / Cypher
`ORDER BY` whenever `le` is a total preorder, because a stable sort's
output is unique. -/
def sortAsc (le : α → α → Bool) : List α → List α
  | [] => []
  | x :: xs => insertAsc le x (sortAsc le xs)

/- ===== app/domain/action_types.py ===== -/

/-- `ActionType` enum. -/
inductive ActionType
  | post
  | like
  | comment
  | repost
  | noop
deriving DecidableEq

/- ===== app/api/schemas/actions.py and app/api/schemas/posts.py ===== -/

structure PostActionPayload where
  content : String
deriving DecidableEq

structure LikeActionPayload where
  target_post_id : String
deriving DecidableEq

structure CommentActionPayload where
  target_post_id : String
  content : String
deriving DecidableEq

structure RepostActionPayload where
  target_post_id : String
  comment : String
deriving DecidableEq

structure NoopActionPayload where
  reason : String
deriving DecidableEq

/-- `ActionData`: the action kind plus at most one matching payload
(the pydantic validator enforces the matching payload; `apply_action`
re-checks `is not None`, which the model mirrors). -/
structure ActionData where
  type : ActionType
  post : Option PostActionPayload := none
  like : Option LikeActionPayload := none
  comment : Option CommentActionPayload := none
  repost : Option RepostActionPayload := none
  noop : Option NoopActionPayload := none
deriving DecidableEq

structure PostLikeItem where
  user_id : String
  liked_at : String
deriving DecidableEq

structure PostCommentItem where
  comment_id : String
  user_id : String
  content : String
  created_at : String
deriving DecidableEq

/-- `PostItem` of `app/api/schemas/posts.py` (the variant used by
`action_executor.apply_action`). -/
structure PostItem where
  post_id : String
  author_id : String
  content : String
  likes : List PostLikeItem := []
  comments : List PostCommentItem := []
  repost_count : Int := 0
  repost_of_post_id : Option String := none
  created_at : String
deriving DecidableEq

/-- `PostItem.new`; `uuid4()` and `datetime.now` become the explicit
`post_id` and `created_at` arguments. -/
def PostItem.new (author_id content : String) (repost_of_post_id : Option String)
    (post_id created_at : String) : PostItem :=
  { post_id := post_id, author_id := author_id, content := content,
    repost_of_post_id := repost_of_post_id, created_at := created_at }

/- ===== app/services/action_executor.py ===== -/

/-- LIKE branch of `apply_action`: walk the pool, and at the first post
whose id matches either stop (actor already liked) or append one like
record; posts after the first match are untouched (`break`). -/
def likeScan (target actor now : String) : List PostItem → List PostItem
  | [] => []
  | item :: rest =>
    if item.post_id = target then
      if item.likes.any (fun l => l.user_id = actor) then item :: rest
      else { item with likes := item.likes ++ [⟨actor, now⟩] } :: rest
    else item :: likeScan target actor now rest

/-- COMMENT branch of `apply_action`: append one comment record to the
first post whose id matches. -/
def commentScan (target actor content freshId now : String) :
    List PostItem → List PostItem
  | [] => []
  | item :: rest =>
    if item.post_id = target then
      { item with comments := item.comments ++ [⟨freshId, actor, content, now⟩] } :: rest
    else item :: commentScan target actor content freshId now rest

/-- REPOST branch, first half of `apply_action`: increment
`repost_count` of the first post whose id matches; also report whether a
match was found (`target_exists`). -/
def repostScan (target : String) : List PostItem → List PostItem × Bool
  | [] => ([], false)
  | item :: rest =>
    if item.post_id = target then
      ({ item with repost_count := item.repost_count + 1 } :: rest, true)
    else
      let scanned := repostScan target rest
      (item :: scanned.1, scanned.2)

/-- `apply_action(session_id, actor_id, action)` acting on one session's
post pool.  The Python function mutates the session's pool in place and
returns a copy of it; the model returns the new pool (which is also what
the caller receives).  `freshId` stands for the `uuid4()` drawn for a
created post or comment, `now` for `datetime.now(...)`. -/
def applyAction (posts : List PostItem) (actor_id : String) (action : ActionData)
    (freshId now : String) : List PostItem :=
  match action.type with
  | .post =>
    match action.post with
    | some payload => posts ++ [PostItem.new actor_id payload.content none freshId now]
    | none => posts
  | .like =>
    match action.like with
    | some payload => likeScan payload.target_post_id actor_id now posts
    | none => posts
  | .comment =>
    match action.comment with
    | some payload =>
      commentScan payload.target_post_id actor_id payload.content freshId now posts
    | none => posts
  | .repost =>
    match action.repost with
    | some payload =>
      let scanned := repostScan payload.target_post_id posts
      if scanned.2 then
        scanned.1 ++
          [PostItem.new actor_id payload.comment (some payload.target_post_id) freshId now]
      else scanned.1
    | none => posts
  | .noop => posts

/- ===== app/services/event_workflow.py ===== -/

/-- Outcome of one external decision call (`runtime.infer_action`).
A transient failure of the remote call is a distinguished outcome. -/
inductive DecisionOutcome
  | ok (action : ActionData)
  | transientError (message : String)

/-- Modelled from the spec: `runtime.infer_action` is referenced by
`event_workflow._infer_action_node` but is not defined anywhere under
`src/`; per spec §4.3/§4.5/§7 a failed or timed-out decision call
"degrades to a recorded failure/no-op for that target only", so the
modelled invoker substitutes a no-op action carrying the failure message
when the decision call raises a transient error. -/
def inferAction (decision : String → DecisionOutcome) (thread_id : String) : ActionData :=
  match decision thread_id with
  | .ok a => a
  | .transientError msg => { type := .noop, noop := some ⟨msg⟩ }

/-- `InferredActionItem` entries accumulated by the fan-out
(`inferred_actions` with the `operator.add` reducer). -/
structure InferredActionItem where
  thread_id : String
  action : ActionData
deriving DecidableEq

/-- Fan-out phase: one `infer_action` node per target thread id; the
reducer concatenates one item per target. -/
def fanoutInfer (decision : String → DecisionOutcome) (targets : List String) :
    List InferredActionItem :=
  targets.map (fun t => ⟨t, inferAction decision t⟩)

/-- `thread_id.partition(":")`: the actor id is everything after the
first colon, and `""` when there is no colon. -/
def actorIdOfThread (t : String) : String :=
  match t.splitOn ":" with
  | [] => ""
  | [_] => ""
  | _ :: rest => String.intercalate ":" rest

/-- `action_by_thread = {item["thread_id"]: item["action"] for item in ...}`:
a later item for the same thread id overwrites an earlier one. -/
def actionByThread (items : List InferredActionItem) (t : String) : Option ActionData :=
  (items.reverse.find? (fun i => i.thread_id = t)).map (·.action)

/-- Serial commit loop of `_apply_actions_node`: iterate the target
thread ids in enumeration order; a target with no recorded action is
skipped (`continue`); otherwise `apply_action` commits it and its
returned pool copy becomes `posts`.  `k` counts the commits made so far
and indexes the stream `fresh` of uuids. -/
def applyActionsLoop (byThread : String → Option ActionData) (fresh : Nat → String)
    (now : String) : List String → Nat → List PostItem → List PostItem →
    List PostItem × List PostItem
  | [], _, pool, posts => (pool, posts)
  | t :: rest, k, pool, posts =>
    match byThread t with
    | none => applyActionsLoop byThread fresh now rest k pool posts
    | some a =>
      let pool2 := applyAction pool (actorIdOfThread t) a (fresh k) now
      applyActionsLoop byThread fresh now rest (k + 1) pool2 pool2

/-- `run_event_workflow`: fan out the decision calls over the target
set, then apply the resulting actions strictly serially in the order the
targets were enumerated.  Returns the final session pool and the `posts`
value of the final state (the snapshot returned by the last
`apply_action` call, `[]` if none ran). -/
def runEventWorkflow (decision : String → DecisionOutcome) (fresh : Nat → String)
    (now : String) (targets : List String) (pool : List PostItem) :
    List PostItem × List PostItem :=
  let inferred := fanoutInfer decision targets
  applyActionsLoop (actionByThread inferred) fresh now targets 0 pool []

/- ===== app/services/agent_scheduler.py ===== -/

/-- `TickAgentResult`. -/
structure TickAgentResult where
  agent_uuid : String
  success : Bool
  message : String
deriving DecidableEq

/-- `EventTickResponse`. -/
structure EventTickResponse where
  session_id : String
  total_agents : Nat
  succeeded : Nat
  failed : Nat
  results : List TickAgentResult
deriving DecidableEq

/-- Python `s.startswith(p)`. -/
def pyStartsWith (s p : String) : Bool := p.data.isPrefixOf s.data

/-- Outcome of one agent's perceive-and-act chain
(`get_formatted_perception` followed by `run_agent_social_cycle`): either
the returned result text together with the GraphStore writes it
performed, or a raised exception. -/
inductive CycleOutcome (ω : Type)
  | value (text : String) (writes : List ω)
  | raised (message : String) (writes : List ω)

/-- `AgentScheduler._run_single_agent`: success is the result text not
starting with `"Error:"`; an exception degrades to a failure result. -/
def runSingleAgent (agent_uuid : String) (cycle : String → CycleOutcome ω) :
    TickAgentResult × List ω :=
  match cycle agent_uuid with
  | .value text writes =>
    (⟨agent_uuid, !(pyStartsWith text "Error:"), text⟩, writes)
  | .raised msg writes =>
    (⟨agent_uuid, false, "Agent tick failed: " ++ msg⟩, writes)

/-- `AgentScheduler.run_tick`: `agent_uuids` is the (read-only) result of
`_list_active_agent_uuids`; with an empty roster the literal zero
response is returned at once, otherwise all agents run via
`asyncio.gather` and the per-agent results are summarised.  The second
component collects every GraphStore write performed during the tick. -/
def runTick (session_id : String) (agent_uuids : List String)
    (cycle : String → CycleOutcome ω) : EventTickResponse × List ω :=
  if agent_uuids.isEmpty then
    (⟨session_id, 0, 0, 0, []⟩, [])
  else
    let pairs := agent_uuids.map (fun u => runSingleAgent u cycle)
    let results := pairs.map (·.1)
    let succeeded := (results.filter (·.success)).length
    (⟨session_id, agent_uuids.length, succeeded, results.length - succeeded, results⟩,
      pairs.flatMap (·.2))

/- ===== app/world_graph.py ===== -/

/-- `WorldState` of the world-level parent graph, extended with the
shared graph-store value `graph` (abstracted as the list of socially
committed entries, each tagged with the agent that committed it) and a
ghost log `perceptions` recording, per executed agent, the graph value
its perception was assembled from. -/
structure WorldTickState (α : Type) where
  session_id : String
  pending_agents : List String
  completed_agents : List String
  graph : List (String × α)
  perceptions : List (String × List (String × α))

/-- `run_next_agent_node`: pop the queue head, read its perception from
the current graph, run the agent subgraph (`anima_app.invoke`), which
commits that agent's social actions, and append the agent to
`completed_agents`.  The external decide-and-commit cycle is abstracted
as `decide`, giving the list of entries the agent commits after seeing
the perception; the randomized inter-agent sleep has no graph effect and
is omitted. -/
def runNextAgentNode (decide : String → List (String × α) → List α)
    (st : WorldTickState α) : WorldTickState α :=
  match st.pending_agents with
  | [] => st
  | agent :: rest =>
    let recent := st.graph
    let actions := decide agent recent
    { session_id := st.session_id
      pending_agents := rest
      completed_agents := st.completed_agents ++ [agent]
      graph := st.graph ++ actions.map (fun a => (agent, a))
      perceptions := st.perceptions ++ [(agent, recent)] }

/-- The parent-graph loop: `router_condition` re-enters
`run_next_agent_node` until `pending_agents` is empty. -/
def worldTickLoop (decide : String → List (String × α) → List α)
    (st : WorldTickState α) : WorldTickState α :=
  match _h : st.pending_agents with
  | [] => st
  | _ :: _ =>
    worldTickLoop decide (runNextAgentNode decide st)
termination_by st.pending_agents.length
decreasing_by simp [runNextAgentNode, _h]

/-- `world_app.ainvoke`: `init_world_tick` fills the queue with the
session's active agents and clears `completed_agents`, then the loop
runs until the queue is empty. -/
def runWorldTick (decide : String → List (String × α) → List α)
    (session_id : String) (active_agents : List String)
    (graph0 : List (String × α)) : WorldTickState α :=
  worldTickLoop decide
    { session_id := session_id
      pending_agents := active_agents
      completed_agents := []
      graph := graph0
      perceptions := [] }

/-- The graph value visible after the first `k` agents of `agents` have
run sequentially from `graph0`: fold of perceive-decide-commit. -/
def seqGraphAfter (decide : String → List (String × α) → List α)
    (graph0 : List (String × α)) (agents : List String) : List (String × α) :=
  agents.foldl (fun g agent => g ++ (decide agent g).map (fun a => (agent, a))) graph0

/- Concurrency model of `AgentScheduler.run_tick`'s gather phase.
Each per-agent task performs, in its own order, a perception read of the
shared graph followed by a decide-and-commit write; `asyncio.gather`
imposes no order between different agents' steps, so a tick execution is
any interleaving of the tasks' steps that keeps each task's read before
its write. -/

/-- One scheduler step of the gather phase: agent `i` either reads its
perception from the current shared graph or commits its action. -/
inductive GatherStep
  | read (i : Nat)
  | write (i : Nat)
deriving DecidableEq

/-- A schedule is admissible for `n` gathered tasks when every task
`i < n` performs exactly one read and exactly one write, with the read
first (each `_run_single_agent` awaits its perception before acting). -/
def gatherAdmissible (n : Nat) (sched : List GatherStep) : Bool :=
  (List.range n).all (fun i =>
    (sched.filter (· = .read i)).length = 1 &&
    (sched.filter (· = .write i)).length = 1 &&
    sched.indexOf (.read i) < sched.indexOf (.write i)) &&
  sched.all (fun s => match s with | .read i => i < n | .write i => i < n)

/-- State of one gather execution: the shared graph (entries tagged by
the committing agent's index) and the perception each agent has read so
far, if any. -/
structure GatherState (α : Type) where
  graph : List (Nat × α)
  percs : List (Nat × List (Nat × α))

/-- Execute a schedule of gather steps over the shared graph: a read
records the current graph as agent `i`'s perception; a write commits
`decide i` applied to the perception `i` read (a write before the
matching read commits nothing — admissible schedules never do this). -/
def execGather (decide : Nat → List (Nat × α) → α) :
    List GatherStep → GatherState α → GatherState α
  | [], st => st
  | .read i :: rest, st =>
    execGather decide rest { st with percs := st.percs ++ [(i, st.graph)] }
  | .write i :: rest, st =>
    match (st.percs.find? (·.1 = i)) with
    | none => execGather decide rest st
    | some p =>
      execGather decide rest { st with graph := st.graph ++ [(i, decide i p.2)] }

/- ===== Neo4j property-graph state =====
Nodes carry an internal `nodeId` (Neo4j's node identity); edges reference
nodes by `nodeId`.  Entity labels are kept as a list so that the dynamic
sub-label used by the event store is observable. -/

structure EntityNode where
  nodeId : Nat
  labels : List String
  session_id : String
  entity_id : String
  name : Option String
  entity_type : Option String
deriving DecidableEq

structure PostNode where
  nodeId : Nat
  session_id : String
  post_id : String
  ptype : String
  content : String
  timestamp : String
deriving DecidableEq

structure EventNode where
  nodeId : Nat
  session_id : String
  event_id : String
  timestamp : String
  world_time : String
  verb : String
  details : String
deriving DecidableEq

/-- The relationship snapshot written by
`_snapshot_relationship_properties`; the health and coordinate values are
carried opaquely as strings (their numeric type plays no role in any
claim, and the `MinecraftEntity` schema class is not under `src/`). -/
structure EntitySnapshot where
  state_health : String
  state_max_health : String
  location_dimension : Option String
  location_biome : Option String
  location_x : Option String
  location_y : Option String
  location_z : Option String
deriving DecidableEq

structure LikedEdge where
  src : Nat
  dst : Nat
  timestamp : String
deriving DecidableEq

structure SnapEdge where
  src : Nat
  dst : Nat
  snapshot : EntitySnapshot
deriving DecidableEq

/-- The full graph store.  `postedEdges` link entity to post,
`repliedEdges` comment-post to parent post, `likedEdges` entity to post,
`initiatedEdges` entity to event, `targetedEdges` event to entity. -/
structure GraphState where
  nextId : Nat := 0
  entities : List EntityNode := []
  posts : List PostNode := []
  events : List EventNode := []
  postedEdges : List (Nat × Nat) := []
  repliedEdges : List (Nat × Nat) := []
  likedEdges : List LikedEdge := []
  initiatedEdges : List SnapEdge := []
  targetedEdges : List SnapEdge := []
deriving DecidableEq

def lookupEntityById (st : GraphState) (nid : Nat) : Option EntityNode :=
  st.entities.find? (fun n => n.nodeId == nid)

def lookupPostById (st : GraphState) (nid : Nat) : Option PostNode :=
  st.posts.find? (fun p => p.nodeId == nid)

def lookupEventById (st : GraphState) (nid : Nat) : Option EventNode :=
  st.events.find? (fun e => e.nodeId == nid)

/-- `MATCH (x:Entity {session_id: $s, entity_id: $e})`. -/
def findEntity (st : GraphState) (s e : String) : Option EntityNode :=
  st.entities.find? (fun n =>
    n.labels.contains "Entity" && n.session_id == s && n.entity_id == e)

/-- `MATCH (p:SocialPost {session_id: $s, post_id: $pid})`. -/
def findPostNode (st : GraphState) (s pid : String) : Option PostNode :=
  st.posts.find? (fun p => p.session_id == s && p.post_id == pid)

/- ===== app/services/social_graph_repository.py ===== -/

/-- `MERGE (actor:Entity {session_id: $session_id, entity_id: $agent_uuid})`:
match the node, or create it carrying exactly the pattern's label and
properties. -/
def mergeEntityPlain (st : GraphState) (s e : String) : EntityNode × GraphState :=
  match findEntity st s e with
  | some n => (n, st)
  | none =>
    let n : EntityNode :=
      { nodeId := st.nextId, labels := ["Entity"], session_id := s,
        entity_id := e, name := none, entity_type := none }
    (n, { st with nextId := st.nextId + 1, entities := st.entities ++ [n] })

/-- `SocialGraphRepository.create_post`: merge the author entity, create
an ORIGINAL post and the POSTED edge (the post is fresh, so the edge
MERGE always creates).  `post_id` is the `uuid4()` drawn, `timestamp`
the `_now_iso()` clock value. -/
def createPost (st : GraphState) (session_id agent_uuid content : String)
    (post_id timestamp : String) : String × GraphState :=
  let m := mergeEntityPlain st session_id agent_uuid
  let postNode : PostNode :=
    { nodeId := m.2.nextId, session_id := session_id, post_id := post_id,
      ptype := "ORIGINAL", content := content, timestamp := timestamp }
  (post_id,
    { m.2 with
        nextId := m.2.nextId + 1
        posts := m.2.posts ++ [postNode]
        postedEdges := m.2.postedEdges ++ [(m.1.nodeId, postNode.nodeId)] })

/-- `SocialGraphRepository.create_comment`: the whole Cypher query
produces no row when the parent `MATCH` fails, in which case nothing is
created and the repository raises; otherwise the author entity is
merged and the COMMENT post plus POSTED and REPLIED_TO edges are
created. -/
def createComment (st : GraphState) (session_id agent_uuid target_post_id content : String)
    (post_id timestamp : String) : Except String (String × GraphState) :=
  match findPostNode st session_id target_post_id with
  | none =>
    .error ("Target post not found in session: target_post_id=" ++ target_post_id)
  | some parent =>
    let m := mergeEntityPlain st session_id agent_uuid
    let commentNode : PostNode :=
      { nodeId := m.2.nextId, session_id := session_id, post_id := post_id,
        ptype := "COMMENT", content := content, timestamp := timestamp }
    .ok (post_id,
      { m.2 with
          nextId := m.2.nextId + 1
          posts := m.2.posts ++ [commentNode]
          postedEdges := m.2.postedEdges ++ [(m.1.nodeId, commentNode.nodeId)]
          repliedEdges := m.2.repliedEdges ++ [(commentNode.nodeId, parent.nodeId)] })

/-- `SocialGraphRepository.like_post`: both `MATCH`es must succeed, else
the query yields no row and the repository raises.  `MERGE` keeps at
most one LIKED edge per (actor, post); `ON CREATE SET` stamps the clock
value, and the returned flag is the *comparison*
`liked.timestamp = $timestamp` — true on creation, and on a pre-existing
edge true exactly when the stored stamp equals the current clock
string. -/
def likePost (st : GraphState) (session_id agent_uuid target_post_id : String)
    (timestamp : String) : Except String (Bool × GraphState) :=
  match findEntity st session_id agent_uuid, findPostNode st session_id target_post_id with
  | some actor, some post =>
    match st.likedEdges.find? (fun e => e.src == actor.nodeId && e.dst == post.nodeId) with
    | some edge => .ok (edge.timestamp == timestamp, st)
    | none =>
      .ok (true,
        { st with likedEdges := st.likedEdges ++ [⟨actor.nodeId, post.nodeId, timestamp⟩] })
  | _, _ =>
    .error ("Target post or actor not found in session: target_post_id=" ++ target_post_id)

/-- Number of LIKED edges between an actor entity node and a post node. -/
def likedEdgeCount (st : GraphState) (actorId postId : Nat) : Nat :=
  (st.likedEdges.filter (fun e => e.src == actorId && e.dst == postId)).length

/- ===== app/services/neo4j_event_store.py ===== -/

structure EntityLocation where
  dimension : String
  biome : String
  x : String
  y : String
  z : String
deriving DecidableEq

/-- `MinecraftEntity` as used by `_snapshot_relationship_properties` and
`ingest_event_to_neo4j` (the schema class itself is not under `src/`;
the fields are those the source accesses, with numeric values carried
opaquely). -/
structure MinecraftEntity where
  entity_id : String
  name : Option String
  entity_type : String
  state_health : String
  state_max_health : String
  location : Option EntityLocation
deriving DecidableEq

structure EventActionPayload where
  verb : String
  details : String
deriving DecidableEq

/-- `EventRequest` as used by `ingest_event_to_neo4j` (`details` stands
for the `json.dumps` of the raw payload, carried opaquely). -/
structure EventRequest where
  session_id : String
  timestamp : String
  world_time : String
  subject : MinecraftEntity
  object : Option MinecraftEntity
  action : EventActionPayload
deriving DecidableEq

/-- `_snapshot_relationship_properties`. -/
def snapshotRelationshipProperties (e : MinecraftEntity) : EntitySnapshot :=
  match e.location with
  | none =>
    { state_health := e.state_health, state_max_health := e.state_max_health,
      location_dimension := none, location_biome := none,
      location_x := none, location_y := none, location_z := none }
  | some loc =>
    { state_health := e.state_health, state_max_health := e.state_max_health,
      location_dimension := some loc.dimension, location_biome := some loc.biome,
      location_x := some loc.x, location_y := some loc.y, location_z := some loc.z }

/-- `_format_entity_display_name`: `name#` plus the first five characters
of the entity id, falling back to the id (or `"unknown"`) for the name
part. -/
def formatEntityDisplayName (name : Option String) (entity_id : String) : String :=
  let strippedId := pyStrip entity_id
  let normalizedId := if strippedId = "" then "unknown" else strippedId
  let normalizedName := match name with | some s => pyStrip s | none => ""
  let baseName := if normalizedName = "" then normalizedId else normalizedName
  baseName ++ "#" ++ String.mk (normalizedId.data.take 5)

/-- `MERGE (sub:Entity:`L` {session_id: $s, entity_id: $e})` followed by
`SET` of name and type: the pattern matches only nodes carrying *both*
labels; on a match the properties are overwritten, otherwise a node with
exactly these labels and properties is created.  (Backtick-escaping of
the label is purely syntactic, so the effective label is the raw
`entity_type` string.) -/
def mergeEntityLabeled (st : GraphState) (label s e nm ty : String) :
    Nat × GraphState :=
  match st.entities.find? (fun n =>
      n.labels.contains "Entity" && n.labels.contains label &&
      n.session_id == s && n.entity_id == e) with
  | some n =>
    (n.nodeId,
      { st with entities := st.entities.map (fun x =>
          if x.nodeId == n.nodeId then { x with name := some nm, entity_type := some ty }
          else x) })
  | none =>
    let node : EntityNode :=
      { nodeId := st.nextId, labels := ["Entity", label], session_id := s,
        entity_id := e, name := some nm, entity_type := some ty }
    (node.nodeId, { st with nextId := st.nextId + 1, entities := st.entities ++ [node] })

/-- `ingest_event_to_neo4j`: merge the subject entity (with its dynamic
type label) and overwrite its display name and type, create a fresh
Event node and the INITIATED edge carrying the subject snapshot, and —
when an object is present — merge the object entity likewise and create
the TARGETED edge carrying the object snapshot.  `event_id` is the
`uuid4()` drawn. -/
def ingestEventToNeo4j (st : GraphState) (event : EventRequest) (event_id : String) :
    String × GraphState :=
  let sub := event.subject
  let m1 := mergeEntityLabeled st sub.entity_type event.session_id sub.entity_id
    (formatEntityDisplayName sub.name sub.entity_id) sub.entity_type
  let evtNode : EventNode :=
    { nodeId := m1.2.nextId, session_id := event.session_id, event_id := event_id,
      timestamp := event.timestamp, world_time := event.world_time,
      verb := event.action.verb, details := event.action.details }
  let st2 : GraphState :=
    { m1.2 with
        nextId := m1.2.nextId + 1
        events := m1.2.events ++ [evtNode]
        initiatedEdges := m1.2.initiatedEdges ++
          [⟨m1.1, evtNode.nodeId, snapshotRelationshipProperties sub⟩] }
  match event.object with
  | none => (event_id, st2)
  | some obj =>
    let m2 := mergeEntityLabeled st2 obj.entity_type event.session_id obj.entity_id
      (formatEntityDisplayName obj.name obj.entity_id) obj.entity_type
    (event_id,
      { m2.2 with targetedEdges := m2.2.targetedEdges ++
          [⟨evtNode.nodeId, m2.1, snapshotRelationshipProperties obj⟩] })

/-- Entity nodes of a state matching one `(session_id, entity_id)` key. -/
def entityNodesForKey (st : GraphState) (s e : String) : List EntityNode :=
  st.entities.filter (fun n => n.session_id == s && n.entity_id == e)

/- ===== app/services/perception_service.py : _PERCEPTION_QUERY ===== -/

/-- A row of the physical-events subquery. -/
structure PhysRow where
  timestamp : String
  world_time : String
  verb : String
  role : String
  counterpart_id : Option String
  counterpart_name : Option String
  details : String
deriving DecidableEq

/-- A row of the social-notifications subquery (`comment_id` is absent
on LIKE rows). -/
structure NotifRow where
  timestamp : String
  actor_id : String
  actor_name : String
  action_type : String
  post_id : String
  content : String
  comment_id : Option String
deriving DecidableEq

/-- One collected comment record of the timeline subquery
(`parent_id` is `nodes(path)[1].post_id`, null when that node carries no
`post_id` property; `depth` is `length(path)`). -/
structure TimelineCommentRow where
  comment_id : String
  parent_id : Option String
  depth : Nat
  timestamp : String
  content : String
  author_id : Option String
  author_name : Option String
deriving DecidableEq

/-- One timeline entry: an ORIGINAL post row with its (optional) author
and collected comment records. -/
structure TimelinePostRow where
  post_id : String
  timestamp : String
  content : String
  author_id : Option String
  author_name : Option String
  comments : List TimelineCommentRow
deriving DecidableEq

/-- The perception payload: the three `RETURN`ed collections. -/
structure PerceptionPayload where
  physical_events : List PhysRow
  social_notifications : List NotifRow
  timeline_posts : List TimelinePostRow
deriving DecidableEq

/-- `OPTIONAL MATCH` row semantics: no match contributes one null row,
otherwise one row per match. -/
def optionalRows (xs : List β) : List (Option β) :=
  match xs with
  | [] => [none]
  | _ => xs.map some

/-- `coalesce(x.name, x.entity_id)`. -/
def coalesceName (n : EntityNode) : String :=
  match n.name with
  | some nm => nm
  | none => n.entity_id

/-- Descending stable sort by a string key (`ORDER BY ... DESC`). -/
def sortDescBy (key : β → String) (xs : List β) : List β :=
  sortAsc (fun a b => strLe (key b) (key a)) xs

/-- First physical-events block:
`MATCH (me)-[:INITIATED]->(evt:Event {session_id: $s})` with
`OPTIONAL MATCH (evt)-[:TARGETED]->(obj:Entity {session_id: $s})`. -/
def physRowsSubject (st : GraphState) (s : String) (me : EntityNode) : List PhysRow :=
  st.initiatedEdges.flatMap (fun ed =>
    if ed.src == me.nodeId then
      match lookupEventById st ed.dst with
      | some evt =>
        if evt.session_id == s then
          let objs := st.targetedEdges.filterMap (fun te =>
            if te.src == evt.nodeId then
              match lookupEntityById st te.dst with
              | some o =>
                if o.labels.contains "Entity" && o.session_id == s then some o else none
              | none => none
            else none)
          (optionalRows objs).map (fun obj =>
            { timestamp := evt.timestamp, world_time := evt.world_time,
              verb := evt.verb, role := "subject",
              counterpart_id := obj.map (·.entity_id),
              counterpart_name := obj.map coalesceName,
              details := evt.details })
        else []
      | none => []
    else [])

/-- Second physical-events block:
`MATCH (me)<-[:TARGETED]-(evt:Event {session_id: $s})` with
`OPTIONAL MATCH (sub:Entity {session_id: $s})-[:INITIATED]->(evt)`. -/
def physRowsObject (st : GraphState) (s : String) (me : EntityNode) : List PhysRow :=
  st.targetedEdges.flatMap (fun ed =>
    if ed.dst == me.nodeId then
      match lookupEventById st ed.src with
      | some evt =>
        if evt.session_id == s then
          let subs := st.initiatedEdges.filterMap (fun ie =>
            if ie.dst == evt.nodeId then
              match lookupEntityById st ie.src with
              | some o =>
                if o.labels.contains "Entity" && o.session_id == s then some o else none
              | none => none
            else none)
          (optionalRows subs).map (fun sub =>
            { timestamp := evt.timestamp, world_time := evt.world_time,
              verb := evt.verb, role := "object",
              counterpart_id := sub.map (·.entity_id),
              counterpart_name := sub.map coalesceName,
              details := evt.details })
        else []
      | none => []
    else [])

/-- Physical-events section: `UNION ALL` of the two blocks, sorted by
timestamp descending, truncated to five (`collect(row)[0..5]`). -/
def physicalEvents (st : GraphState) (s : String) (me : EntityNode) : List PhysRow :=
  (sortDescBy (·.timestamp) (physRowsSubject st s me ++ physRowsObject st s me)).take 5

/-- Like-notification block: `MATCH (me)-[:POSTED]->(my_post:SocialPost
{session_id: $s})`, `MATCH (actor:Entity {session_id: $s})-[liked:LIKED]->
(my_post) WHERE actor.entity_id <> me.entity_id`. -/
def notifRowsLike (st : GraphState) (s : String) (me : EntityNode) : List NotifRow :=
  st.postedEdges.flatMap (fun pe =>
    if pe.1 == me.nodeId then
      match lookupPostById st pe.2 with
      | some myPost =>
        if myPost.session_id == s then
          st.likedEdges.filterMap (fun le =>
            if le.dst == myPost.nodeId then
              match lookupEntityById st le.src with
              | some actor =>
                if actor.labels.contains "Entity" && actor.session_id == s &&
                    !(actor.entity_id == me.entity_id) then
                  some { timestamp := le.timestamp, actor_id := actor.entity_id,
                         actor_name := coalesceName actor, action_type := "LIKE",
                         post_id := myPost.post_id, content := "", comment_id := none }
                else none
              | none => none
            else none)
        else []
      | none => []
    else [])

/-- Comment-notification block: `MATCH (comment:SocialPost {session_id:
$s, type: 'COMMENT'})-[:REPLIED_TO]->(my_post)`, `MATCH (actor:Entity
{session_id: $s})-[:POSTED]->(comment) WHERE actor.entity_id <>
me.entity_id`. -/
def notifRowsComment (st : GraphState) (s : String) (me : EntityNode) : List NotifRow :=
  st.postedEdges.flatMap (fun pe =>
    if pe.1 == me.nodeId then
      match lookupPostById st pe.2 with
      | some myPost =>
        if myPost.session_id == s then
          st.repliedEdges.flatMap (fun re =>
            if re.2 == myPost.nodeId then
              match lookupPostById st re.1 with
              | some cm =>
                if cm.session_id == s && cm.ptype == "COMMENT" then
                  st.postedEdges.filterMap (fun ae =>
                    if ae.2 == cm.nodeId then
                      match lookupEntityById st ae.1 with
                      | some actor =>
                        if actor.labels.contains "Entity" && actor.session_id == s &&
                            !(actor.entity_id == me.entity_id) then
                          some { timestamp := cm.timestamp, actor_id := actor.entity_id,
                                 actor_name := coalesceName actor,
                                 action_type := "COMMENT", post_id := myPost.post_id,
                                 content := cm.content, comment_id := some cm.post_id }
                        else none
                      | none => none
                    else none)
                else []
              | none => []
            else [])
        else []
      | none => []
    else [])

/-- Social-notifications section: `UNION ALL` of the two blocks sorted
by timestamp descending (no truncation). -/
def socialNotifications (st : GraphState) (s : String) (me : EntityNode) : List NotifRow :=
  sortDescBy (·.timestamp) (notifRowsLike st s me ++ notifRowsComment st s me)

/-- Every way of picking one element out of a list, paired with the
remaining elements in order. -/
def picks : List β → List (β × List β)
  | [] => []
  | x :: xs => (x, xs) :: (picks xs).map (fun p => (p.1, x :: p.2))

/-- All `REPLIED_TO*1..` paths ending at node `target`, under Cypher's
relationship-uniqueness (trail) semantics: each result is
`(start node, nodes(path)[1], length(path))`.  `fuel` bounds the trail
length; `avail.length` is always enough because a trail cannot repeat an
edge. -/
def pathsToFuel : Nat → List (Nat × Nat) → Nat → List (Nat × Nat × Nat)
  | 0, _, _ => []
  | fuel + 1, avail, target =>
    (picks avail).flatMap (fun pe =>
      if pe.1.2 == target then
        (pe.1.1, target, 1) ::
          (pathsToFuel fuel pe.2 pe.1.1).map (fun q => (q.1, q.2.1, q.2.2 + 1))
      else [])

/-- All `REPLIED_TO*1..` paths of a state ending at `target`. -/
def pathsTo (avail : List (Nat × Nat)) (target : Nat) : List (Nat × Nat × Nat) :=
  pathsToFuel avail.length avail target

/-- `collect(DISTINCT ...)`: deduplicate, keeping first occurrences
(`fuel` only bounds the recursion; `l.length` always suffices since each
step strictly shrinks the list). -/
def distinctRowsFuel [DecidableEq β] : Nat → List β → List β
  | 0, _ => []
  | _, [] => []
  | fuel + 1, x :: xs => x :: distinctRowsFuel fuel (xs.filter (fun y => !(y == x)))

/-- `collect(DISTINCT ...)`: deduplicate, keeping first occurrences. -/
def distinctRows [DecidableEq β] (l : List β) : List β :=
  distinctRowsFuel l.length l

/-- Comment subquery of the timeline: for one ORIGINAL post, every
`REPLIED_TO*1..` path from a session COMMENT node, cross-joined with the
comment's optional session author, collected DISTINCT.  The path's
intermediate nodes are *not* session-filtered by the query; only the
path start (`comment`) and the author are. -/
def timelineComments (st : GraphState) (s : String) (post : PostNode) :
    List TimelineCommentRow :=
  distinctRows
    ((pathsTo st.repliedEdges post.nodeId).flatMap (fun q =>
      match lookupPostById st q.1 with
      | some cm =>
        if cm.session_id == s && cm.ptype == "COMMENT" then
          let authors := st.postedEdges.filterMap (fun ae =>
            if ae.2 == cm.nodeId then
              match lookupEntityById st ae.1 with
              | some a =>
                if a.labels.contains "Entity" && a.session_id == s then some a else none
              | none => none
            else none)
          (optionalRows authors).map (fun author =>
            { comment_id := cm.post_id,
              parent_id := (lookupPostById st q.2.1).map (·.post_id),
              depth := q.2.2, timestamp := cm.timestamp, content := cm.content,
              author_id := author.map (·.entity_id),
              author_name := author.map coalesceName })
        else []
      | none => []))

/-- Timeline section: ORIGINAL session posts with their optional session
authors, ordered by post timestamp descending, limited to five, each
with its collected comment rows. -/
def timelinePosts (st : GraphState) (s : String) : List TimelinePostRow :=
  let postAuthorRows := st.posts.flatMap (fun p =>
    if p.session_id == s && p.ptype == "ORIGINAL" then
      let authors := st.postedEdges.filterMap (fun ae =>
        if ae.2 == p.nodeId then
          match lookupEntityById st ae.1 with
          | some a =>
            if a.labels.contains "Entity" && a.session_id == s then some a else none
          | none => none
        else none)
      (optionalRows authors).map (fun author => (p, author))
    else [])
  ((sortDescBy (fun r => r.1.timestamp) postAuthorRows).take 5).map (fun r =>
    { post_id := r.1.post_id, timestamp := r.1.timestamp, content := r.1.content,
      author_id := r.2.map (·.entity_id),
      author_name := r.2.map coalesceName,
      comments := timelineComments st s r.1 })

/-- `PerceptionService._load_perception_payload`: when the anchor
`MATCH (me:Entity {session_id, entity_id})` finds no node the query
yields no record and the service returns three empty sections; otherwise
the three subqueries run against the anchored `me`. -/
def loadPerceptionPayload (st : GraphState) (s agent : String) : PerceptionPayload :=
  match findEntity st s agent with
  | none => ⟨[], [], []⟩
  | some me =>
    ⟨physicalEvents st s me, socialNotifications st s me, timelinePosts st s⟩

/- ===== Session restriction and well-formedness ===== -/

/-- Does node id `nid` belong to a session-`s` entity / post / event? -/
def entInSession (st : GraphState) (s : String) (nid : Nat) : Bool :=
  match lookupEntityById st nid with
  | some n => n.session_id == s
  | none => false

def postInSession (st : GraphState) (s : String) (nid : Nat) : Bool :=
  match lookupPostById st nid with
  | some p => p.session_id == s
  | none => false

def eventInSession (st : GraphState) (s : String) (nid : Nat) : Bool :=
  match lookupEventById st nid with
  | some e => e.session_id == s
  | none => false

/-- The session-`s` slice of a graph state: its nodes with session id
`s` and the edges connecting them (the global id counter is not session
data and is normalised to zero). -/
def restrictSession (s : String) (st : GraphState) : GraphState :=
  { nextId := 0
    entities := st.entities.filter (fun n => n.session_id == s)
    posts := st.posts.filter (fun p => p.session_id == s)
    events := st.events.filter (fun e => e.session_id == s)
    postedEdges := st.postedEdges.filter (fun e =>
      entInSession st s e.1 && postInSession st s e.2)
    repliedEdges := st.repliedEdges.filter (fun e =>
      postInSession st s e.1 && postInSession st s e.2)
    likedEdges := st.likedEdges.filter (fun e =>
      entInSession st s e.src && postInSession st s e.dst)
    initiatedEdges := st.initiatedEdges.filter (fun e =>
      entInSession st s e.src && eventInSession st s e.dst)
    targetedEdges := st.targetedEdges.filter (fun e =>
      eventInSession st s e.src && entInSession st s e.dst) }

/-- Node ids of every node of the state. -/
def allNodeIds (st : GraphState) : List Nat :=
  st.entities.map (·.nodeId) ++ st.posts.map (·.nodeId) ++ st.events.map (·.nodeId)

/-- Every edge connects two existing nodes of the expected kinds and of
one common session.  This is the session-closure invariant the write
operations maintain. -/
def sessionClosed (st : GraphState) : Bool :=
  st.postedEdges.all (fun e =>
    match lookupEntityById st e.1, lookupPostById st e.2 with
    | some a, some p => a.session_id == p.session_id
    | _, _ => false) &&
  st.repliedEdges.all (fun e =>
    match lookupPostById st e.1, lookupPostById st e.2 with
    | some c, some p => c.session_id == p.session_id
    | _, _ => false) &&
  st.likedEdges.all (fun e =>
    match lookupEntityById st e.src, lookupPostById st e.dst with
    | some a, some p => a.session_id == p.session_id
    | _, _ => false) &&
  st.initiatedEdges.all (fun e =>
    match lookupEntityById st e.src, lookupEventById st e.dst with
    | some a, some v => a.session_id == v.session_id
    | _, _ => false) &&
  st.targetedEdges.all (fun e =>
    match lookupEventById st e.src, lookupEntityById st e.dst with
    | some v, some a => v.session_id == a.session_id
    | _, _ => false)

/-- A well-formed store: distinct node ids and session-closed edges.
Every state reachable by the modelled write operations from the empty
state is of this shape. -/
def graphWellFormed (st : GraphState) : Bool :=
  (allNodeIds st).Nodup ∧ sessionClosed st

/- ===== app/services/perception_service.py : _format_comment_tree ===== -/

/-- Grouping key of a comment row in `by_parent`:
`self._safe_text(item.get("parent_id")) or root_post_id`. -/
def groupKeyOf (root : String) (c : TimelineCommentRow) : String :=
  let p := safeText c.parent_id
  if p = "" then root else p

/-- Rendered/recursion id of a comment:
`self._safe_text(child.get("comment_id")) or "unknown_comment"` — the
same value is printed and used as the key of the recursive `walk`. -/
def displayIdOf (c : TimelineCommentRow) : String :=
  let v := safeText (some c.comment_id)
  if v = "" then "unknown_comment" else v

/-- Rendered author: `self._safe_text(child.get("author_name")) or "未知玩家"`. -/
def authorDisplayOf (c : TimelineCommentRow) : String :=
  let v := safeText c.author_name
  if v = "" then "未知玩家" else v

/-- `by_parent[k]`, already sorted: insertion into the dict preserves
input order and each bucket is then stably sorted by
`self._safe_text(entry.get("timestamp"))`, which for one key equals
stably sorting the filtered input. -/
def childrenOf (root : String) (comments : List TimelineCommentRow) (k : String) :
    List TimelineCommentRow :=
  sortAsc (fun a b => strLe (safeText (some a.timestamp)) (safeText (some b.timestamp)))
    (comments.filter (fun c => groupKeyOf root c == k))

/-- Sibling loop of `walk`: emit each child of the current parent with
its connector and prefix, then descend into the child's own subtree via
`walkSub` under the extended prefix. -/
def walkSiblings (walkSub : TimelineCommentRow → String → List (String × String × TimelineCommentRow)) :
    String → List TimelineCommentRow → List (String × String × TimelineCommentRow)
  | _, [] => []
  | pfx, c :: rest =>
    let isLast := rest.isEmpty
    let connector := if isLast then "└─" else "├─"
    let childPfx := pfx ++ (if isLast then "   " else "│  ")
    ((pfx, connector, c) :: walkSub c childPfx) ++ walkSiblings walkSub pfx rest

/-- `walk(parent_id, prefix)` with at most `fuel` nested call levels:
the emitted `(prefix, connector, comment)` triples in emission order.
`fuel` is the remaining nested-call depth available to `walk`; the
Python source recurses without any such bound, so the model makes the
consumed depth explicit (one unit per nesting level). -/
def walkPairs (children : String → List TimelineCommentRow) :
    Nat → String → String → List (String × String × TimelineCommentRow)
  | 0, _, _ => []
  | fuel + 1, parent, pfx =>
    walkSiblings (fun c childPfx => walkPairs children fuel (displayIdOf c) childPfx)
      pfx (children parent)

/-- One rendered line:
`f"{prefix}{connector} 评论 `comment_id={comment_id}` @{author}: {content}"`. -/
def formatLine (e : String × String × TimelineCommentRow) : String :=
  e.1 ++ e.2.1 ++ " 评论 `comment_id=" ++ displayIdOf e.2.2 ++ "` @" ++
    authorDisplayOf e.2.2 ++ ": " ++ safeText (some e.2.2.content)

/-- `_format_comment_tree`: empty input renders the placeholder,
otherwise the depth-first walk from the root key at base prefix `"  "`;
an input whose walk emits nothing also renders the placeholder.  The
default depth budget `comments.length + 1` reproduces the unbounded
Python recursion on every forest-shaped input, where the nesting depth
cannot exceed the number of comments. -/
def formatCommentTree (root_post_id : String) (comments : List TimelineCommentRow) :
    List String :=
  if comments.isEmpty then ["  └─ 暂无评论"]
  else
    let lines := (walkPairs (childrenOf root_post_id comments) (comments.length + 1)
      root_post_id "  ").map formatLine
    if lines.isEmpty then ["  └─ 暂无评论"] else lines

/- ===== Auxiliary definitions used by the claim statements ===== -/

/-- The graph value an agent sees after the first `k` agents of a
sequential tick have run, paired with the agent: the perception log the
sequential world loop produces. -/
def seqPerceptions (decide : String → List (String × α) → List α)
    (g : List (String × α)) : List String → List (String × List (String × α))
  | [] => []
  | a :: rest =>
    (a, g) :: seqPerceptions decide (g ++ (decide a g).map (fun x => (a, x))) rest

/-- The node-id counter dominates every allocated node id.  This holds
in every state reachable by the modelled operations from the empty
state, since ids are drawn from the counter. -/
def nextIdFresh (st : GraphState) : Bool :=
  (allNodeIds st).all (fun nid => nid < st.nextId)

/-- State left by `create_comment` (the raised `ValueError` leaves the
store untouched). -/
def createCommentState (st : GraphState)
    (session_id agent_uuid target_post_id content post_id timestamp : String) :
    GraphState :=
  match createComment st session_id agent_uuid target_post_id content post_id timestamp with
  | .ok r => r.2
  | .error _ => st

/-- State left by `like_post` (the raised `ValueError` leaves the store
untouched). -/
def likePostState (st : GraphState)
    (session_id agent_uuid target_post_id timestamp : String) : GraphState :=
  match likePost st session_id agent_uuid target_post_id timestamp with
  | .ok r => r.2
  | .error _ => st

/-- "No comment is ever emitted before its parent": every element of the
emission list either hangs directly under the root key or has a parent
key equal to the displayed id of some previously emitted comment
(`seen` accumulates the comments emitted so far). -/
def ParentsSeen (root : String) :
    List TimelineCommentRow → List (String × String × TimelineCommentRow) → Prop
  | _, [] => True
  | seen, e :: rest =>
    (groupKeyOf root e.2.2 = root ∨
      ∃ p ∈ seen, displayIdOf p = groupKeyOf root e.2.2) ∧
    ParentsSeen root (seen ++ [e.2.2]) rest

/-- `n` repeated `'c'` characters — distinct, whitespace-free comment
ids for the reply-chain family. -/
def mkcs (n : Nat) : String := String.mk (List.replicate n 'c')

/-- `n` repeated `'t'` characters — timestamps for the reply-chain
family. -/
def mkts (n : Nat) : String := String.mk (List.replicate n 't')

/-- The `i`-th comment of a linear reply chain under root post `"R"`:
comment `0` replies to the root post, comment `i+1` replies to comment
`i`. -/
def chainComment (i : Nat) : TimelineCommentRow :=
  { comment_id := mkcs (i + 1),
    parent_id := if i = 0 then some "R" else some (mkcs i),
    depth := i + 1,
    timestamp := mkts (i + 1),
    content := "x",
    author_id := none,
    author_name := some "A" }

/-- A linear reply chain of `n` comments under root post `"R"`. -/
def chainComments (n : Nat) : List TimelineCommentRow :=
  (List.range n).map chainComment

/-- Session flag of an optional lookup result. -/
def sessFlag {β : Type} (sess : β → String) (s2 : String) : Option β → Bool
  | some n => sess n == s2
  | none => false

/-- A two-session store used to instantiate the session-isolation
theorem: one entity and one post per session, each author linked to its
post. -/
def twoSessionStore : GraphState :=
  { nextId := 4
    entities := [
      { nodeId := 0, labels := ["Entity"], session_id := "s1", entity_id := "alice", name := none, entity_type := none },
      { nodeId := 2, labels := ["Entity"], session_id := "s9", entity_id := "zed", name := none, entity_type := none }]
    posts := [
      { nodeId := 1, session_id := "s1", post_id := "p1", ptype := "ORIGINAL", content := "hi", timestamp := "T1" },
      { nodeId := 3, session_id := "s9", post_id := "q1", ptype := "ORIGINAL", content := "yo", timestamp := "T2" }]
    postedEdges := [(0, 1), (2, 3)] }

/- ================= THEOREMS ================= -/

/-- Helper: scanning a pool in which no post carries the target id finds
nothing and changes nothing. -/
theorem repostScan_miss (tgt : String) (pool : List PostItem)
    (h : ∀ p ∈ pool, p.post_id ≠ tgt) : repostScan tgt pool = (pool, false) := by
  induction pool with
  | nil => rfl
  | cons item rest ih =>
    have hi : ¬ item.post_id = tgt := h item (List.mem_cons_self item rest)
    have hrest := ih (fun p hp => h p (List.mem_cons_of_mem _ hp))
    simp [repostScan, hi, hrest]

/-- Helper: scanning a pool whose first id match is `p` increments only
`p`'s repost counter and reports the hit. -/
theorem repostScan_hit (tgt : String) (pre suf : List PostItem) (p : PostItem)
    (hpre : ∀ q ∈ pre, q.post_id ≠ tgt) (hp : p.post_id = tgt) :
    repostScan tgt (pre ++ p :: suf)
      = (pre ++ { p with repost_count := p.repost_count + 1 } :: suf, true) := by
  induction pre with
  | nil => simp [repostScan, hp]
  | cons a rest ih =>
    have ha : ¬ a.post_id = tgt := hpre a (List.mem_cons_self a rest)
    have hrest := ih (fun q hq => hpre q (List.mem_cons_of_mem _ hq))
    simp [repostScan, ha, hrest]

/-- C9: run_tick on a session whose agent roster is empty returns the
literal summary `total_agents = 0, succeeded = 0, failed = 0,
results = []` and performs no GraphStore write (the write log of the
tick is empty; the only store access of this path,
`_list_active_agent_uuids`, is a read). -/
theorem runTick_empty_roster {ω : Type} (session_id : String)
    (cycle : String → CycleOutcome ω) :
    runTick session_id [] cycle =
      ({ session_id := session_id, total_agents := 0, succeeded := 0,
         failed := 0, results := [] }, []) := rfl

/-- C8 counterexample: applying a repost whose target post id does not
exist in the session returns the untouched pool as an ordinary value.
No `NotFoundError` is produced — `apply_action`'s REPOST branch has no
failure path at all (its codomain in the model is accordingly a plain
pool, not an `Except`), so the claim that the call "returns a
NotFoundError" is false at this input. -/
theorem repost_missing_target_returns_normally :
    applyAction [PostItem.new "alice" "hello" none "p1" "t0"] "bob"
      { type := .repost, repost := some ⟨"p-missing", "look"⟩ } "p2" "t1"
      = [PostItem.new "alice" "hello" none "p1" "t0"] := by
  simp [applyAction, repostScan, PostItem.new]

/-- C8 amended: a repost action whose target post does not exist in the
session creates no new post and leaves the pool identical before and
after the call; the call completes normally (silently) instead of
returning a NotFoundError. -/
theorem repost_missing_target_is_noop (pool : List PostItem)
    (actor tgt c fid now : String) (h : ∀ p ∈ pool, p.post_id ≠ tgt) :
    applyAction pool actor { type := .repost, repost := some ⟨tgt, c⟩ } fid now = pool := by
  simp [applyAction, repostScan_miss tgt pool h]

/-- C8 amended, witness at a concrete pool and missing target. -/
theorem repost_missing_target_is_noop_witness :
    applyAction [PostItem.new "alice" "hi" none "p7" "t0"] "carol"
      { type := .repost, repost := some ⟨"p-absent", "c"⟩ } "p8" "t2"
      = [PostItem.new "alice" "hi" none "p7" "t0"] :=
  repost_missing_target_is_noop _ "carol" "p-absent" "c" "p8" "t2" (by decide)

/-- C10: applying a repost targeting an existing post `p` (the first
pool entry carrying the target id) increments exactly `p`'s
`repost_count` by one and appends exactly one new post whose
`repost_of_post_id` is the target id and whose `content` is the repost
comment; every other pool entry is unchanged. -/
theorem repost_existing_target_bumps_and_links (pre suf : List PostItem)
    (p : PostItem) (actor tgt c fid now : String)
    (hpre : ∀ q ∈ pre, q.post_id ≠ tgt) (hp : p.post_id = tgt) :
    applyAction (pre ++ p :: suf) actor
        { type := .repost, repost := some ⟨tgt, c⟩ } fid now
      = (pre ++ { p with repost_count := p.repost_count + 1 } :: suf)
        ++ [PostItem.new actor c (some tgt) fid now] := by
  simp [applyAction, repostScan_hit tgt pre suf p hpre hp]

/-- C10 witness: a two-post pool where the second post is the target. -/
theorem repost_existing_target_bumps_and_links_witness :
    applyAction
        [PostItem.new "ann" "a" none "p1" "t1", PostItem.new "bob" "b" none "p2" "t2"]
        "carol" { type := .repost, repost := some ⟨"p2", "nice"⟩ } "p9" "t9"
      = ([PostItem.new "ann" "a" none "p1" "t1"] ++
          [{ PostItem.new "bob" "b" none "p2" "t2" with repost_count := 0 + 1 }] ++
          [PostItem.new "carol" "nice" (some "p2") "p9" "t9"]) := by
  have h := repost_existing_target_bumps_and_links
    [PostItem.new "ann" "a" none "p1" "t1"] [] (PostItem.new "bob" "b" none "p2" "t2")
    "carol" "p2" "nice" "p9" "t9" (by decide) (by decide)
  simpa using h

/-- C2: event fan-out over three targets where the middle target's
decision call raises a transient error.  The fan-out records an explicit
no-op (carrying the failure message) for that target only; the serial
commit loop then applies the targets' actions in enumeration order, so
the final committed pool — which is also the returned result list —
contains exactly the posts of targets 1 and 3 appended to the prior
pool, while target 2 contributes nothing. -/
theorem eventWorkflow_single_failure_degrades
    (decision : String → DecisionOutcome) (fresh : Nat → String)
    (now t1 t2 t3 c1 c3 msg : String) (pool : List PostItem)
    (h21 : t2 ≠ t1) (h31 : t3 ≠ t1) (h32 : t3 ≠ t2)
    (h1 : decision t1 = .ok { type := .post, post := some ⟨c1⟩ })
    (h2 : decision t2 = .transientError msg)
    (h3 : decision t3 = .ok { type := .post, post := some ⟨c3⟩ }) :
    fanoutInfer decision [t1, t2, t3]
      = [⟨t1, { type := .post, post := some ⟨c1⟩ }⟩,
         ⟨t2, { type := .noop, noop := some ⟨msg⟩ }⟩,
         ⟨t3, { type := .post, post := some ⟨c3⟩ }⟩] ∧
    runEventWorkflow decision fresh now [t1, t2, t3] pool
      = (pool ++ [PostItem.new (actorIdOfThread t1) c1 none (fresh 0) now]
             ++ [PostItem.new (actorIdOfThread t3) c3 none (fresh 2) now],
         pool ++ [PostItem.new (actorIdOfThread t1) c1 none (fresh 0) now]
             ++ [PostItem.new (actorIdOfThread t3) c3 none (fresh 2) now]) := by
  constructor
  · simp [fanoutInfer, inferAction, h1, h2, h3]
  · simp [runEventWorkflow, fanoutInfer, inferAction, h1, h2, h3,
      applyActionsLoop, actionByThread, applyAction, h21, h31, h32]

/-- C2 witness: a concrete decision function failing exactly on the
second of three concrete targets. -/
theorem eventWorkflow_single_failure_degrades_witness :
    fanoutInfer
        (fun t => if t = "s:a1" then .ok { type := .post, post := some ⟨"c1"⟩ }
          else if t = "s:a2" then .transientError "timeout"
          else .ok { type := .post, post := some ⟨"c3"⟩ })
        ["s:a1", "s:a2", "s:a3"]
      = [⟨"s:a1", { type := .post, post := some ⟨"c1"⟩ }⟩,
         ⟨"s:a2", { type := .noop, noop := some ⟨"timeout"⟩ }⟩,
         ⟨"s:a3", { type := .post, post := some ⟨"c3"⟩ }⟩] ∧
    runEventWorkflow
        (fun t => if t = "s:a1" then .ok { type := .post, post := some ⟨"c1"⟩ }
          else if t = "s:a2" then .transientError "timeout"
          else .ok { type := .post, post := some ⟨"c3"⟩ })
        (fun _ => "fid") "tnow" ["s:a1", "s:a2", "s:a3"] []
      = ([] ++ [PostItem.new (actorIdOfThread "s:a1") "c1" none "fid" "tnow"]
            ++ [PostItem.new (actorIdOfThread "s:a3") "c3" none "fid" "tnow"],
         [] ++ [PostItem.new (actorIdOfThread "s:a1") "c1" none "fid" "tnow"]
            ++ [PostItem.new (actorIdOfThread "s:a3") "c3" none "fid" "tnow"]) :=
  eventWorkflow_single_failure_degrades
    (fun t => if t = "s:a1" then .ok { type := .post, post := some ⟨"c1"⟩ }
      else if t = "s:a2" then .transientError "timeout"
      else .ok { type := .post, post := some ⟨"c3"⟩ })
    (fun _ => "fid") "tnow" "s:a1" "s:a2" "s:a3" "c1" "c3" "timeout" []
    (by decide) (by decide) (by decide) rfl rfl rfl

/-- C4 (code evaluated at the failing input): in a session holding actor
`alice` and post `p1`, a first `like_post` at clock string `T1` creates
the edge and returns `true`; a second identical call *within the same
second* (same `_now_iso()` string `T1`) still returns `true` — not
`false` as the claim states — because the returned flag is the
comparison `liked.timestamp = $timestamp` and the stored stamp equals
the current clock string.  The LIKED edge itself is not duplicated
(edge count stays 1), and a second call at a *different* clock string
`T2` does return `false`. -/
theorem likePost_same_second_repeat_returns_true :
    likePost
        { nextId := 2,
          entities := [{ nodeId := 0, labels := ["Entity"], session_id := "s",
                         entity_id := "alice", name := none, entity_type := none }],
          posts := [{ nodeId := 1, session_id := "s", post_id := "p1",
                      ptype := "ORIGINAL", content := "hi", timestamp := "t0" }] }
        "s" "alice" "p1" "T1"
      = .ok (true,
          { nextId := 2,
            entities := [{ nodeId := 0, labels := ["Entity"], session_id := "s",
                           entity_id := "alice", name := none, entity_type := none }],
            posts := [{ nodeId := 1, session_id := "s", post_id := "p1",
                        ptype := "ORIGINAL", content := "hi", timestamp := "t0" }],
            likedEdges := [⟨0, 1, "T1"⟩] }) ∧
    likePost
        { nextId := 2,
          entities := [{ nodeId := 0, labels := ["Entity"], session_id := "s",
                         entity_id := "alice", name := none, entity_type := none }],
          posts := [{ nodeId := 1, session_id := "s", post_id := "p1",
                      ptype := "ORIGINAL", content := "hi", timestamp := "t0" }],
          likedEdges := [⟨0, 1, "T1"⟩] }
        "s" "alice" "p1" "T1"
      = .ok (true,
          { nextId := 2,
            entities := [{ nodeId := 0, labels := ["Entity"], session_id := "s",
                           entity_id := "alice", name := none, entity_type := none }],
            posts := [{ nodeId := 1, session_id := "s", post_id := "p1",
                        ptype := "ORIGINAL", content := "hi", timestamp := "t0" }],
            likedEdges := [⟨0, 1, "T1"⟩] }) ∧
    likedEdgeCount
        { nextId := 2,
          entities := [{ nodeId := 0, labels := ["Entity"], session_id := "s",
                         entity_id := "alice", name := none, entity_type := none }],
          posts := [{ nodeId := 1, session_id := "s", post_id := "p1",
                      ptype := "ORIGINAL", content := "hi", timestamp := "t0" }],
          likedEdges := [⟨0, 1, "T1"⟩] } 0 1 = 1 ∧
    likePost
        { nextId := 2,
          entities := [{ nodeId := 0, labels := ["Entity"], session_id := "s",
                         entity_id := "alice", name := none, entity_type := none }],
          posts := [{ nodeId := 1, session_id := "s", post_id := "p1",
                      ptype := "ORIGINAL", content := "hi", timestamp := "t0" }],
          likedEdges := [⟨0, 1, "T1"⟩] }
        "s" "alice" "p1" "T2"
      = .ok (false,
          { nextId := 2,
            entities := [{ nodeId := 0, labels := ["Entity"], session_id := "s",
                           entity_id := "alice", name := none, entity_type := none }],
            posts := [{ nodeId := 1, session_id := "s", post_id := "p1",
                        ptype := "ORIGINAL", content := "hi", timestamp := "t0" }],
            likedEdges := [⟨0, 1, "T1"⟩] }) := by
  refine ⟨?_, ?_, ?_, ?_⟩ <;> rfl

/-- C5 counterexample: recording two events for the *same* entity key
`("s", "e1")` but with different `entity_type` values (`"player"` then
`"zombie"`) leaves TWO Entity nodes for that key.  The upsert's `MERGE`
pattern includes the dynamic type label, so the second call does not
match the node created by the first and creates a duplicate — refuting
the claim that upserting the same key twice always leaves exactly one
node. -/
theorem ingest_differing_type_duplicates_key :
    (entityNodesForKey
      (ingestEventToNeo4j
        (ingestEventToNeo4j ({} : GraphState)
          { session_id := "s", timestamp := "ts1", world_time := "w1",
            subject := { entity_id := "e1", name := some "Steve",
                         entity_type := "player", state_health := "20",
                         state_max_health := "20", location := none },
            object := none, action := ⟨"SPAWN", "d1"⟩ } "ev1").2
        { session_id := "s", timestamp := "ts2", world_time := "w2",
          subject := { entity_id := "e1", name := some "Steve",
                       entity_type := "zombie", state_health := "20",
                       state_max_health := "20", location := none },
          object := none, action := ⟨"DIED", "d2"⟩ } "ev2").2
      "s" "e1").length = 2 := by decide

/-- Helper: a labeled entity merge over a store holding no node for the
key creates the node. -/
theorem mergeEntityLabeled_miss (st : GraphState) (L s e nm ty : String)
    (h : ∀ n ∈ st.entities, ¬(n.session_id = s ∧ n.entity_id = e)) :
    mergeEntityLabeled st L s e nm ty =
      (st.nextId,
        { st with
            nextId := st.nextId + 1
            entities := st.entities ++
              [{ nodeId := st.nextId, labels := ["Entity", L], session_id := s,
                 entity_id := e, name := some nm, entity_type := some ty }] }) := by
  have hf : st.entities.find? (fun n =>
      n.labels.contains "Entity" && n.labels.contains L &&
      n.session_id == s && n.entity_id == e) = none := by
    rw [List.find?_eq_none]
    intro n hn
    have := h n hn
    simp only [Bool.and_eq_true, beq_iff_eq]
    tauto
  unfold mergeEntityLabeled
  rw [hf]

/-- Helper: a labeled entity merge over a store whose single key match
is a final node carrying the pattern's labels overwrites that node's
name and type in place. -/
theorem mergeEntityLabeled_hit_last (st : GraphState) (base : List EntityNode)
    (N : EntityNode) (L s e nm ty : String)
    (hst : st.entities = base ++ [N])
    (hbase : ∀ n ∈ base, ¬(n.session_id = s ∧ n.entity_id = e))
    (hfreshBase : ∀ n ∈ base, n.nodeId ≠ N.nodeId)
    (hN : N.labels.contains "Entity" && N.labels.contains L &&
      N.session_id == s && N.entity_id == e) :
    mergeEntityLabeled st L s e nm ty =
      (N.nodeId,
        { st with entities := base ++ [{ N with name := some nm, entity_type := some ty }] }) := by
  have hbf : base.find? (fun n =>
      n.labels.contains "Entity" && n.labels.contains L &&
      n.session_id == s && n.entity_id == e) = none := by
    rw [List.find?_eq_none]
    intro n hn
    have := hbase n hn
    simp only [Bool.and_eq_true, beq_iff_eq]
    tauto
  have hfind : st.entities.find? (fun n =>
      n.labels.contains "Entity" && n.labels.contains L &&
      n.session_id == s && n.entity_id == e) = some N := by
    have hsingle : List.find? (fun n =>
        n.labels.contains "Entity" && n.labels.contains L &&
        n.session_id == s && n.entity_id == e) [N] = some N :=
      List.find?_cons_of_pos [] hN
    rw [hst, List.find?_append, hbf, hsingle]
    rfl
  have hself : ∀ (l : List EntityNode), (∀ n ∈ l, n.nodeId ≠ N.nodeId) →
      l.map (fun x =>
        if x.nodeId == N.nodeId then { x with name := some nm, entity_type := some ty }
        else x) = l := by
    intro l hl
    induction l with
    | nil => rfl
    | cons a t ih =>
      have ha := hl a (List.mem_cons_self a t)
      have ih2 := ih (fun n hn => hl n (List.mem_cons_of_mem _ hn))
      simp only [beq_iff_eq] at ih2
      simp [ha, ih2]
  have hmap : st.entities.map (fun x =>
      if x.nodeId == N.nodeId then { x with name := some nm, entity_type := some ty }
      else x) = base ++ [{ N with name := some nm, entity_type := some ty }] := by
    rw [hst, List.map_append, hself base hfreshBase]
    simp
  unfold mergeEntityLabeled
  rw [hfind]
  dsimp only
  rw [hmap]

/-- C5 amended: upserting the same entity key `(s, e)` twice *with the
same entity_type* (the dynamic label of the MERGE pattern), starting
from a store holding no node for that key, leaves exactly one Entity
node for the key, and that node's name is the display name derived from
the value supplied by the latest call — last write wins.  (With
differing entity_type values the MERGE pattern misses the existing node
and duplicates it, per the counterexample.) -/
theorem ingest_same_type_upserts_single_node
    (st : GraphState) (s e ty id1 id2 : String) (e1 e2 : EventRequest)
    (h0 : entityNodesForKey st s e = [])
    (hfresh : nextIdFresh st = true)
    (hs1 : e1.session_id = s) (hs2 : e2.session_id = s)
    (hid1 : e1.subject.entity_id = e) (hid2 : e2.subject.entity_id = e)
    (hty1 : e1.subject.entity_type = ty) (hty2 : e2.subject.entity_type = ty)
    (hobj1 : e1.object = none) (hobj2 : e2.object = none) :
    entityNodesForKey (ingestEventToNeo4j (ingestEventToNeo4j st e1 id1).2 e2 id2).2 s e
      = [{ nodeId := st.nextId, labels := ["Entity", ty], session_id := s,
           entity_id := e, name := some (formatEntityDisplayName e2.subject.name e),
           entity_type := some ty }] := by
  have hkey : ∀ n ∈ st.entities, ¬(n.session_id = s ∧ n.entity_id = e) := by
    intro n hn hc
    have h0x : ∀ n2 ∈ st.entities, ¬((n2.session_id == s && n2.entity_id == e) = true) := by
      rw [← List.filter_eq_nil_iff]
      exact h0
    exact h0x n hn (by simp [hc.1, hc.2])
  have hm1 := mergeEntityLabeled_miss st ty s e
    (formatEntityDisplayName e1.subject.name e) ty hkey
  set st1 := (ingestEventToNeo4j st e1 id1).2 with hst1
  have f1 : st1.entities
      = st.entities ++
        [{ nodeId := st.nextId, labels := ["Entity", ty], session_id := s,
           entity_id := e, name := some (formatEntityDisplayName e1.subject.name e),
           entity_type := some ty }] := by
    rw [hst1]
    simp [ingestEventToNeo4j, hobj1, hs1, hid1, hty1, hm1]
  have hfreshIds : ∀ n ∈ st.entities, n.nodeId ≠ st.nextId := by
    intro n hn
    have hmem : n.nodeId ∈ allNodeIds st := by
      unfold allNodeIds
      exact List.mem_append_left _ (List.mem_append_left _ (List.mem_map_of_mem _ hn))
    have hlt := (List.all_eq_true.mp hfresh) n.nodeId hmem
    simp only [decide_eq_true_eq] at hlt
    omega
  have hm2 := mergeEntityLabeled_hit_last st1 st.entities
    { nodeId := st.nextId, labels := ["Entity", ty], session_id := s,
      entity_id := e, name := some (formatEntityDisplayName e1.subject.name e),
      entity_type := some ty }
    ty s e (formatEntityDisplayName e2.subject.name e) ty f1 hkey hfreshIds
    (by simp)
  have f2 : (ingestEventToNeo4j st1 e2 id2).2.entities
      = st.entities ++
        [{ nodeId := st.nextId, labels := ["Entity", ty], session_id := s,
           entity_id := e, name := some (formatEntityDisplayName e2.subject.name e),
           entity_type := some ty }] := by
    simp [ingestEventToNeo4j, hobj2, hs2, hid2, hty2, hm2]
  unfold entityNodesForKey
  rw [f2, List.filter_append]
  have hnil : st.entities.filter (fun n => n.session_id == s && n.entity_id == e) = [] := by
    rw [List.filter_eq_nil_iff]
    intro n hn
    have := hkey n hn
    simp only [Bool.and_eq_true, beq_iff_eq]
    tauto
  rw [hnil]
  simp

/-- C5 amended, witness: two concrete events for key `("s", "e1")`, both
typed `"player"`, names `Steve` then `Steve2`, from the empty store. -/
theorem ingest_same_type_upserts_single_node_witness :
    entityNodesForKey
      (ingestEventToNeo4j
        (ingestEventToNeo4j ({} : GraphState)
          { session_id := "s", timestamp := "ts1", world_time := "w1",
            subject := { entity_id := "e1", name := some "Steve",
                         entity_type := "player", state_health := "20",
                         state_max_health := "20", location := none },
            object := none, action := ⟨"SPAWN", "d1"⟩ } "ev1").2
        { session_id := "s", timestamp := "ts2", world_time := "w2",
          subject := { entity_id := "e1", name := some "Steve2",
                       entity_type := "player", state_health := "19",
                       state_max_health := "20", location := none },
          object := none, action := ⟨"HURT", "d2"⟩ } "ev2").2
      "s" "e1"
      = [{ nodeId := ({} : GraphState).nextId, labels := ["Entity", "player"],
           session_id := "s", entity_id := "e1",
           name := some (formatEntityDisplayName (some "Steve2") "e1"),
           entity_type := some "player" }] :=
  ingest_same_type_upserts_single_node ({} : GraphState) "s" "e1" "player" "ev1" "ev2"
    _ _ rfl rfl rfl rfl rfl rfl rfl rfl rfl rfl

/-- Helper: running the world loop from any intermediate state consumes
the whole queue in order, committing each agent's actions and logging
the perception each agent read. -/
theorem worldTickLoop_run {α : Type} (d : String → List (String × α) → List α) :
    ∀ (pending : List String) (sid : String) (completed : List String)
      (g : List (String × α)) (percs : List (String × List (String × α))),
    worldTickLoop d ⟨sid, pending, completed, g, percs⟩ =
      ⟨sid, [], completed ++ pending, seqGraphAfter d g pending,
        percs ++ seqPerceptions d g pending⟩ := by
  intro pending
  induction pending with
  | nil =>
    intro sid completed g percs
    rw [worldTickLoop]
    simp [seqGraphAfter, seqPerceptions]
  | cons a rest ih =>
    intro sid completed g percs
    rw [worldTickLoop]
    simp only [runNextAgentNode]
    rw [ih]
    simp [seqGraphAfter, seqPerceptions]

/-- Helper: the perception log pairs agents with graphs in queue
order. -/
theorem seqPerceptions_map_fst {α : Type} (d : String → List (String × α) → List α) :
    ∀ (l : List String) (g : List (String × α)),
    (seqPerceptions d g l).map Prod.fst = l := by
  intro l
  induction l with
  | nil => intro g; rfl
  | cons a rest ih => intro g; simp [seqPerceptions, ih]

/-- Helper: the `k`-th perception of the sequential log is the graph
after the first `k` agents. -/
theorem seqPerceptions_get {α : Type} (d : String → List (String × α) → List α) :
    ∀ (l : List String) (k : Nat) (g : List (String × α)) (hk : k < l.length),
    (seqPerceptions d g l).get? k = some (l.get ⟨k, hk⟩, seqGraphAfter d g (l.take k)) := by
  intro l
  induction l with
  | nil => intro k g hk; simp at hk
  | cons a rest ih =>
    intro k g hk
    match k with
    | 0 => simp [seqPerceptions, seqGraphAfter]
    | k + 1 =>
      have hk2 : k < rest.length := by simpa using hk
      simp only [seqPerceptions, List.get?_cons_succ, List.length_cons] at *
      rw [ih k _ hk2]
      simp [seqGraphAfter]

/-- Helper: committed entries persist as later agents run. -/
theorem mem_seqGraphAfter_of_mem {α : Type} (d : String → List (String × α) → List α)
    (z : String × α) :
    ∀ (l : List String) (g : List (String × α)), z ∈ g → z ∈ seqGraphAfter d g l := by
  intro l
  induction l with
  | nil => intro g hz; simpa [seqGraphAfter] using hz
  | cons a rest ih =>
    intro g hz
    simp only [seqGraphAfter, List.foldl_cons]
    exact ih _ (List.mem_append_left _ hz)

/-- Helper: every entry of the sequential graph is either initial or
tagged by one of the agents that have run. -/
theorem mem_seqGraphAfter_cases {α : Type} (d : String → List (String × α) → List α)
    (z : String × α) :
    ∀ (l : List String) (g : List (String × α)),
    z ∈ seqGraphAfter d g l → z ∈ g ∨ ∃ a ∈ l, z.1 = a := by
  intro l
  induction l with
  | nil => intro g hz; exact Or.inl (by simpa [seqGraphAfter] using hz)
  | cons a rest ih =>
    intro g hz
    simp only [seqGraphAfter, List.foldl_cons] at hz
    rcases ih _ hz with hin | ⟨b, hb, hzb⟩
    · rcases List.mem_append.mp hin with hin2 | hin3
      · exact Or.inl hin2
      · rcases List.mem_map.mp hin3 with ⟨w, _, hw⟩
        exact Or.inr ⟨a, List.mem_cons_self a rest, by rw [← hw]⟩
    · exact Or.inr ⟨b, List.mem_cons_of_mem _ hb, hzb⟩

/-- Helper: splitting the sequential graph at an agent boundary. -/
theorem seqGraphAfter_append {α : Type} (d : String → List (String × α) → List α)
    (g : List (String × α)) (l1 l2 : List String) :
    seqGraphAfter d g (l1 ++ l2) = seqGraphAfter d (seqGraphAfter d g l1) l2 := by
  simp [seqGraphAfter, List.foldl_append]

/-- C1 counterexample: `AgentScheduler.run_tick` launches the per-agent
tasks concurrently (`asyncio.gather`), so any interleaving that keeps
each task's perception read before its own commit is admissible.  The
admissible schedule that reads both perceptions before either commit
leaves agent 1 — second in queue order — with a perception equal to the
initial (empty) graph, even though agent 0's action `(0, 0)` is
committed in the final graph: run_tick does not process agents
sequentially, and agent k's perception can miss actions committed by
agents before it in the same tick. -/
theorem runTickGather_interleaving_blinds_later_agent :
    gatherAdmissible 2 [.read 0, .read 1, .write 0, .write 1] = true ∧
    (execGather (fun i _ => i) [.read 0, .read 1, .write 0, .write 1]
        { graph := [], percs := [] }).percs = [(0, []), (1, [])] ∧
    (execGather (fun i _ => i) [.read 0, .read 1, .write 0, .write 1]
        { graph := [], percs := [] }).graph = [(0, 0), (1, 1)] := by
  refine ⟨?_, ?_, ?_⟩ <;> rfl

/-- C1 amended: the sequential guarantee holds for the world-graph tick
loop (`world_app`: `init_world_tick` then `run_next_agent_node` until
the queue empties), which runs agents strictly in queue order,
assembling each perception from the current graph before committing:
the completed list and perception log follow queue order, agent `k`'s
perception is exactly the graph left by agents `0..k-1`, every action
committed by an earlier agent `j < k` is in it, and no action of any
agent `i ≥ k` (of this tick, over fresh agents) is. -/
theorem worldTick_sequential_causality {α : Type}
    (d : String → List (String × α) → List α) (sid : String)
    (agents : List String) (g0 : List (String × α))
    (j k i : Nat) (x y : α)
    (hj : j < agents.length) (hk : k < agents.length) (hi : i < agents.length)
    (hjk : j < k) (hki : k ≤ i)
    (hnd : agents.Nodup)
    (hg0 : ∀ a ∈ agents, ∀ z : α, (a, z) ∉ g0)
    (hx : x ∈ d (agents.get ⟨j, hj⟩) (seqGraphAfter d g0 (agents.take j))) :
    (runWorldTick d sid agents g0).completed_agents = agents ∧
    (runWorldTick d sid agents g0).perceptions.map Prod.fst = agents ∧
    (runWorldTick d sid agents g0).perceptions.get? k
      = some (agents.get ⟨k, hk⟩, seqGraphAfter d g0 (agents.take k)) ∧
    (runWorldTick d sid agents g0).graph = seqGraphAfter d g0 agents ∧
    (agents.get ⟨j, hj⟩, x) ∈ seqGraphAfter d g0 (agents.take k) ∧
    (agents.get ⟨i, hi⟩, y) ∉ seqGraphAfter d g0 (agents.take k) := by
  have hrun : runWorldTick d sid agents g0 =
      ⟨sid, [], agents, seqGraphAfter d g0 agents, seqPerceptions d g0 agents⟩ := by
    unfold runWorldTick
    rw [worldTickLoop_run]
    simp
  refine ⟨by rw [hrun], by rw [hrun]; exact seqPerceptions_map_fst d agents g0,
    by rw [hrun]; exact seqPerceptions_get d agents k g0 hk, by rw [hrun], ?_, ?_⟩
  · -- inclusion: agent j's commit is visible at step k
    have hsplit : agents.take k
        = agents.take j ++ [agents.get ⟨j, hj⟩]
          ++ (agents.drop (j + 1)).take (k - (j + 1)) := by
      have h1 : agents.take (j + 1) = agents.take j ++ [agents.get ⟨j, hj⟩] := by
        rw [List.take_succ]
        simp [List.getElem?_eq_getElem hj]
      have h2 : agents.take ((j + 1) + (k - (j + 1))) =
          agents.take (j + 1) ++ (agents.drop (j + 1)).take (k - (j + 1)) :=
        List.take_add agents (j + 1) (k - (j + 1))
      have h3 : (j + 1) + (k - (j + 1)) = k := by omega
      rw [h3] at h2
      rw [h2, h1, List.append_assoc]
    rw [hsplit, seqGraphAfter_append, seqGraphAfter_append]
    apply mem_seqGraphAfter_of_mem
    have : seqGraphAfter d (seqGraphAfter d g0 (agents.take j)) [agents.get ⟨j, hj⟩]
        = seqGraphAfter d g0 (agents.take j)
          ++ (d (agents.get ⟨j, hj⟩) (seqGraphAfter d g0 (agents.take j))).map
              (fun w => (agents.get ⟨j, hj⟩, w)) := by
      simp [seqGraphAfter]
    rw [this]
    exact List.mem_append_right _ (List.mem_map_of_mem _ hx)
  · -- exclusion: agent i (i ≥ k) has committed nothing visible at step k
    intro hmem
    rcases mem_seqGraphAfter_cases d _ _ _ hmem with hin | ⟨a, ha, hfst⟩
    · exact hg0 (agents.get ⟨i, hi⟩) (agents.get_mem _ _) y hin
    · rcases List.mem_iff_get.mp ha with ⟨⟨m, hm⟩, hma⟩
      have hmtake : (agents.take k).get ⟨m, hm⟩ = agents.get ⟨m, by
          have := hm
          simp only [List.length_take] at this
          omega⟩ := by
        simp [List.get_eq_getElem, List.getElem_take]
      have hmk : m < k := by
        have := hm
        simp only [List.length_take] at this
        omega
      have hfst2 : agents.get ⟨i, hi⟩ = a := by simpa using hfst
      have heq : agents.get ⟨m, by simp only [List.length_take] at hm; omega⟩
          = agents.get ⟨i, hi⟩ := by
        rw [← hmtake, hma, hfst2]
      have : m = i := by
        have hinj := List.nodup_iff_injective_get.mp hnd heq
        simpa using congrArg Fin.val hinj
      omega

/-- C1 amended, witness: three concrete agents, a decide function that
commits the current graph size, `j = 0 < k = 1 ≤ i = 2`. -/
theorem worldTick_sequential_causality_witness :
    (runWorldTick (fun _ g => [g.length]) "s" ["a", "b", "c"] []).completed_agents
      = ["a", "b", "c"] ∧
    (runWorldTick (fun _ g => [g.length]) "s" ["a", "b", "c"] []).perceptions.map Prod.fst
      = ["a", "b", "c"] ∧
    (runWorldTick (fun _ g => [g.length]) "s" ["a", "b", "c"] []).perceptions.get? 1
      = some ((["a", "b", "c"] : List String).get ⟨1, by decide⟩,
          seqGraphAfter (fun _ g => [g.length]) [] (["a", "b", "c"].take 1)) ∧
    (runWorldTick (fun _ g => [g.length]) "s" ["a", "b", "c"] []).graph
      = seqGraphAfter (fun _ g => [g.length]) [] ["a", "b", "c"] ∧
    ((["a", "b", "c"] : List String).get ⟨0, by decide⟩, 0)
      ∈ seqGraphAfter (fun _ g => [g.length]) [] (["a", "b", "c"].take 1) ∧
    ((["a", "b", "c"] : List String).get ⟨2, by decide⟩, 7)
      ∉ seqGraphAfter (fun _ g => [g.length]) [] (["a", "b", "c"].take 1) :=
  worldTick_sequential_causality (fun _ g => [g.length]) "s" ["a", "b", "c"] []
    0 1 2 0 7 (by decide) (by decide) (by decide) (by decide) (by decide)
    (by decide) (by intro a _ z hz; simp at hz) (by decide)

/-- Helper: `dropWhile isWhitespace` on a run of one non-whitespace
character. -/
theorem dropWhile_char_replicate (c : Char) (h : c.isWhitespace = false) (n : Nat) :
    (List.replicate n c).dropWhile Char.isWhitespace = List.replicate n c := by
  cases n with
  | zero => rfl
  | succ m => simp [List.replicate_succ, List.dropWhile_cons, h]

/-- Helper: Python strip is the identity on a run of one non-whitespace
character. -/
theorem pyStripChars_replicate (c : Char) (h : c.isWhitespace = false) (n : Nat) :
    pyStripChars (List.replicate n c) = List.replicate n c := by
  unfold pyStripChars
  rw [dropWhile_char_replicate c h n, List.reverse_replicate,
    dropWhile_char_replicate c h n, List.reverse_replicate]

/-- Helper: `_safe_text` is the identity on a run of one plain
character. -/
theorem safeText_replicate (c : Char) (hnl : nlToSpace c = c)
    (hws : c.isWhitespace = false) (n : Nat) :
    safeText (some (String.mk (List.replicate n c))) = String.mk (List.replicate n c) := by
  show String.mk (pyStripChars ((List.replicate n c).map nlToSpace)) = _
  rw [List.map_replicate, hnl, pyStripChars_replicate c hws n]

theorem safeText_mkcs (n : Nat) : safeText (some (mkcs n)) = mkcs n :=
  safeText_replicate 'c' (by decide) (by decide) n

theorem safeText_mkts (n : Nat) : safeText (some (mkts n)) = mkts n :=
  safeText_replicate 't' (by decide) (by decide) n

theorem mkcs_inj {a b : Nat} (h : mkcs a = mkcs b) : a = b := by
  unfold mkcs at h
  have := congrArg (fun s => s.data.length) h
  simpa using this

theorem mkcs_ne_empty (n : Nat) : mkcs (n + 1) ≠ "" := by
  intro h
  have := congrArg (fun s => s.data.length) h
  simp [mkcs] at this

theorem mkcs_ne_R (m : Nat) : mkcs m ≠ "R" := by
  intro h
  have hd := congrArg String.data h
  simp only [mkcs] at hd
  cases m with
  | zero => simp at hd
  | succ k =>
    rw [List.replicate_succ] at hd
    have : 'c' = 'R' := by
      have := congrArg (fun l => l.headD 'z') hd
      simp at this
    simp at this

/-- Helper: grouping key of the chain's first comment is the root. -/
theorem groupKey_chain_zero : groupKeyOf "R" (chainComment 0) = "R" := by decide

/-- Helper: grouping key of a later chain comment is its parent's id. -/
theorem groupKey_chain_succ (i : Nat) :
    groupKeyOf "R" (chainComment (i + 1)) = mkcs (i + 1) := by
  unfold groupKeyOf chainComment
  simp only [if_neg (Nat.succ_ne_zero i)]
  rw [safeText_mkcs]
  exact if_neg (mkcs_ne_empty i)

/-- Helper: displayed (and recursion) id of a chain comment. -/
theorem displayId_chain (i : Nat) : displayIdOf (chainComment i) = mkcs (i + 1) := by
  unfold displayIdOf chainComment
  rw [safeText_mkcs]
  exact if_neg (mkcs_ne_empty i)

/-- Helper: the chain comments replying to comment `m` (key `mkcs m`,
`m ≥ 1`) are exactly comment `m` when it exists. -/
theorem chain_filter_key (m : Nat) (hm : 1 ≤ m) :
    ∀ n : Nat, (chainComments n).filter (fun c => groupKeyOf "R" c == mkcs m)
      = if m < n then [chainComment m] else [] := by
  intro n
  induction n with
  | zero => simp [chainComments]
  | succ n ih =>
    rw [chainComments, List.range_succ, List.map_append, List.filter_append,
      show (List.range n).map chainComment = chainComments n from rfl, ih]
    cases n with
    | zero =>
      have hne : ¬(groupKeyOf "R" (chainComment 0) == mkcs m) = true := by
        rw [groupKey_chain_zero]
        simp [Ne.symm (mkcs_ne_R m)]
      simp [List.filter_cons, hne, Nat.not_lt_zero, if_neg (by omega : ¬ m < 1)]
      omega
    | succ p =>
      by_cases hmp : m = p + 1
      · subst hmp
        have hpos : (groupKeyOf "R" (chainComment (p + 1)) == mkcs (p + 1)) = true := by
          rw [groupKey_chain_succ p]
          simp
        simp [List.filter_cons, hpos, if_neg (Nat.lt_irrefl (p + 1)),
          if_pos (Nat.lt_succ_self (p + 1))]
      · have hne : ¬(groupKeyOf "R" (chainComment (p + 1)) == mkcs m) = true := by
          rw [groupKey_chain_succ p]
          simp only [beq_iff_eq]
          intro hx
          exact hmp (mkcs_inj hx).symm
        have hiff : m < p + 2 ↔ m < p + 1 := by omega
        simp [List.filter_cons, hne, hiff]

/-- Helper: the chain comments replying directly to the root are exactly
comment `0` when the chain is nonempty. -/
theorem chain_filter_root :
    ∀ n : Nat, (chainComments n).filter (fun c => groupKeyOf "R" c == "R")
      = if 0 < n then [chainComment 0] else [] := by
  intro n
  induction n with
  | zero => simp [chainComments]
  | succ n ih =>
    rw [chainComments, List.range_succ, List.map_append, List.filter_append,
      show (List.range n).map chainComment = chainComments n from rfl, ih]
    cases n with
    | zero =>
      have hpos : (groupKeyOf "R" (chainComment 0) == "R") = true := by
        rw [groupKey_chain_zero]
        decide
      simp [List.filter_cons, hpos]
    | succ p =>
      have hne : ¬(groupKeyOf "R" (chainComment (p + 1)) == "R") = true := by
        rw [groupKey_chain_succ p]
        simp [mkcs_ne_R (p + 1)]
      simp [List.filter_cons, hne]

/-- Helper: children buckets of the chain under comment keys. -/
theorem children_chain_key (m : Nat) (hm : 1 ≤ m) (n : Nat) :
    childrenOf "R" (chainComments n) (mkcs m)
      = if m < n then [chainComment m] else [] := by
  unfold childrenOf
  rw [chain_filter_key m hm n]
  by_cases h : m < n
  · simp [h, sortAsc, insertAsc]
  · simp [h, sortAsc]

/-- Helper: children bucket of the chain under the root key. -/
theorem children_chain_root (n : Nat) :
    childrenOf "R" (chainComments n) "R"
      = if 0 < n then [chainComment 0] else [] := by
  unfold childrenOf
  rw [chain_filter_root n]
  by_cases h : 0 < n
  · simp [h, sortAsc, insertAsc]
  · simp [h, sortAsc]

/-- Helper: walking the chain from comment `m` emits one comment per
remaining chain element, consuming exactly one unit of nesting depth
each. -/
theorem walk_chain_len (n : Nat) :
    ∀ (f m : Nat) (pfx : String), 1 ≤ m →
    (walkPairs (childrenOf "R" (chainComments n)) f (mkcs m) pfx).length
      = min f (n - m) := by
  intro f
  induction f with
  | zero => intro m pfx hm; simp [walkPairs]
  | succ f ih =>
    intro m pfx hm
    rw [walkPairs, children_chain_key m hm n]
    by_cases hmn : m < n
    · rw [if_pos hmn]
      simp only [walkSiblings, List.append_nil, List.length_cons]
      rw [displayId_chain m, ih (m + 1) _ (by omega)]
      omega
    · rw [if_neg hmn]
      simp only [walkSiblings, List.length_nil]
      omega

/-- C7 (code evaluated at the failing family): the timeline comment walk
consumes exactly one level of recursion depth per nesting level and is
NOT depth-bounded.  On a linear reply chain of `n` comments under one
root post, a walk allowed `fuel` nested call levels emits exactly
`min fuel n` comments: every fixed depth budget `d` fails on the chain
of `d + 1` comments (emitting only `d` of them), while the actual
Python `walk` — which recurses with no bound — needs recursion depth
`n`, growing without limit in the input. -/
theorem commentWalk_depth_grows_with_nesting (fuel n : Nat) :
    (walkPairs (childrenOf "R" (chainComments n)) fuel "R" "  ").length = min fuel n := by
  cases fuel with
  | zero => simp [walkPairs]
  | succ f =>
    rw [walkPairs, children_chain_root n]
    by_cases hn : 0 < n
    · rw [if_pos hn]
      simp only [walkSiblings, List.append_nil, List.length_cons]
      rw [displayId_chain 0, walk_chain_len n f 1 _ (by omega)]
      omega
    · rw [if_neg hn]
      simp only [walkSiblings, List.length_nil]
      omega

/-- Helper: membership through stable insertion. -/
theorem mem_insertAsc {α : Type} (le : α → α → Bool) (x w : α) :
    ∀ l : List α, w ∈ insertAsc le x l ↔ w = x ∨ w ∈ l := by
  intro l
  induction l with
  | nil => simp [insertAsc]
  | cons y ys ih =>
    by_cases h : le x y = true
    · simp [insertAsc, h]
    · simp only [insertAsc, if_neg h, List.mem_cons, ih]
      tauto

/-- Helper: membership through the stable sort. -/
theorem mem_sortAsc {α : Type} (le : α → α → Bool) (w : α) :
    ∀ l : List α, w ∈ sortAsc le l ↔ w ∈ l := by
  intro l
  induction l with
  | nil => simp [sortAsc]
  | cons y ys ih => simp [sortAsc, mem_insertAsc, ih]

/-- Helper: every bucket member carries the bucket's key. -/
theorem mem_childrenOf (root : String) (comments : List TimelineCommentRow)
    (k : String) (c : TimelineCommentRow) (hc : c ∈ childrenOf root comments k) :
    groupKeyOf root c = k := by
  unfold childrenOf at hc
  rw [mem_sortAsc] at hc
  have := List.of_mem_filter hc
  simpa using this

/-- Helper: Python string comparison is total. -/
theorem lexLe_total : ∀ as bs : List Char, lexLe as bs = true ∨ lexLe bs as = true := by
  intro as
  induction as with
  | nil => intro bs; exact Or.inl rfl
  | cons a as ih =>
    intro bs
    cases bs with
    | nil => exact Or.inr rfl
    | cons b bs2 =>
      by_cases hab : a = b
      · subst hab
        rcases ih bs2 with h | h
        · exact Or.inl (by simpa [lexLe] using h)
        · exact Or.inr (by simpa [lexLe] using h)
      · rcases lt_trichotomy a b with h | h | h
        · exact Or.inl (by simp [lexLe, hab, decide_eq_true h])
        · exact absurd h hab
        · exact Or.inr (by simp [lexLe, Ne.symm hab, decide_eq_true h])

/-- Helper: `strLe` is total. -/
theorem strLe_total (a b : String) : strLe a b = true ∨ strLe b a = true :=
  lexLe_total a.data b.data

/-- Helper: stable insertion preserves adjacent sortedness for a total
comparison. -/
theorem chain_insertAsc {α : Type} (le : α → α → Bool)
    (htot : ∀ a b : α, le a b = true ∨ le b a = true) (x : α) :
    ∀ l : List α, List.Chain' (fun a b => le a b = true) l →
      List.Chain' (fun a b => le a b = true) (insertAsc le x l) := by
  intro l
  induction l with
  | nil => intro _; simp [insertAsc]
  | cons y ys ih =>
    intro h
    by_cases hxy : le x y = true
    · rw [insertAsc, if_pos hxy, List.chain'_cons]
      exact ⟨hxy, h⟩
    · have hyx : le y x = true := (htot x y).resolve_left hxy
      have hys := h.tail
      have hins := ih hys
      rw [insertAsc, if_neg hxy]
      cases ys with
      | nil =>
        rw [show insertAsc le x [] = [x] from rfl, List.chain'_cons]
        exact ⟨hyx, List.chain'_singleton x⟩
      | cons z zs =>
        by_cases hxz : le x z = true
        · rw [insertAsc, if_pos hxz] at hins ⊢
          rw [List.chain'_cons]
          exact ⟨hyx, hins⟩
        · rw [insertAsc, if_neg hxz] at hins ⊢
          rw [List.chain'_cons]
          exact ⟨(List.chain'_cons.mp h).1, hins⟩

/-- Helper: the stable sort produces an adjacently sorted list for a
total comparison. -/
theorem chain_sortAsc {α : Type} (le : α → α → Bool)
    (htot : ∀ a b : α, le a b = true ∨ le b a = true) :
    ∀ l : List α, List.Chain' (fun a b => le a b = true) (sortAsc le l) := by
  intro l
  induction l with
  | nil => simp [sortAsc]
  | cons y ys ih => exact chain_insertAsc le htot y _ ih

/-- Helper: `ParentsSeen` only inspects membership of `seen`. -/
theorem parentsSeen_mono (root : String) :
    ∀ (out : List (String × String × TimelineCommentRow))
      (seen seen2 : List TimelineCommentRow),
    (∀ p ∈ seen, p ∈ seen2) → ParentsSeen root seen out → ParentsSeen root seen2 out := by
  intro out
  induction out with
  | nil => intro seen seen2 _ _; trivial
  | cons e rest ih =>
    intro seen seen2 hsub h
    obtain ⟨hhead, htail⟩ := h
    refine ⟨?_, ih (seen ++ [e.2.2]) (seen2 ++ [e.2.2]) ?_ htail⟩
    · rcases hhead with h1 | ⟨p, hp, hdp⟩
      · exact Or.inl h1
      · exact Or.inr ⟨p, hsub p hp, hdp⟩
    · intro p hp
      rcases List.mem_append.mp hp with h1 | h1
      · exact List.mem_append_left _ (hsub p h1)
      · exact List.mem_append_right _ h1

/-- Helper: concatenating two emission blocks preserves `ParentsSeen`
when the second block may additionally rely on the first block's
comments. -/
theorem parentsSeen_append (root : String) :
    ∀ (A B : List (String × String × TimelineCommentRow))
      (seen : List TimelineCommentRow),
    ParentsSeen root seen A →
    ParentsSeen root (seen ++ A.map (fun e => e.2.2)) B →
    ParentsSeen root seen (A ++ B) := by
  intro A
  induction A with
  | nil => intro B seen _ hB; simpa using hB
  | cons e A2 ih =>
    intro B seen hA hB
    obtain ⟨hhead, htail⟩ := hA
    refine ⟨hhead, ih B (seen ++ [e.2.2]) htail ?_⟩
    have : seen ++ [e.2.2] ++ A2.map (fun e => e.2.2)
        = seen ++ ((e :: A2).map (fun e => e.2.2)) := by
      simp
    rw [this]
    exact hB

/-- Helper: the sibling walk only emits comments whose parent is the
current key, which is the root or an already-seen comment; so no
comment is ever emitted before its parent. -/
theorem walkSiblings_parentsSeen (root : String) (comments : List TimelineCommentRow) :
    ∀ (fuel : Nat) (l : List TimelineCommentRow) (pfx : String)
      (seen : List TimelineCommentRow) (k : String),
    (∀ c ∈ l, groupKeyOf root c = k) →
    (k = root ∨ ∃ p ∈ seen, displayIdOf p = k) →
    ParentsSeen root seen
      (walkSiblings
        (fun c childPfx => walkPairs (childrenOf root comments) fuel (displayIdOf c) childPfx)
        pfx l) := by
  intro fuel
  induction fuel with
  | zero =>
    intro l
    induction l with
    | nil => intro pfx seen k _ _; trivial
    | cons c rest ihl =>
      intro pfx seen k hl hk
      simp only [walkSiblings, walkPairs, List.cons_append, List.nil_append]
      refine ⟨?_, ?_⟩
      · rcases hk with h1 | ⟨p, hp, hdp⟩
        · exact Or.inl (by rw [hl c (List.mem_cons_self c rest), h1])
        · exact Or.inr ⟨p, hp, by rw [hdp, hl c (List.mem_cons_self c rest)]⟩
      · have := ihl pfx seen k (fun x hx => hl x (List.mem_cons_of_mem _ hx)) hk
        exact parentsSeen_mono root _ _ _ (fun p hp => List.mem_append_left _ hp) this
  | succ f ihf =>
    intro l
    induction l with
    | nil => intro pfx seen k _ _; trivial
    | cons c rest ihl =>
      intro pfx seen k hl hk
      simp only [walkSiblings, List.cons_append]
      refine ⟨?_, ?_⟩
      · rcases hk with h1 | ⟨p, hp, hdp⟩
        · exact Or.inl (by rw [hl c (List.mem_cons_self c rest), h1])
        · exact Or.inr ⟨p, hp, by rw [hdp, hl c (List.mem_cons_self c rest)]⟩
      · refine parentsSeen_append root _ _ _ ?_ ?_
        · exact ihf (childrenOf root comments (displayIdOf c)) _ (seen ++ [c])
            (displayIdOf c)
            (fun x hx => mem_childrenOf root comments _ x hx)
            (Or.inr ⟨c, List.mem_append_right _ (List.mem_cons_self c []), rfl⟩)
        · have := ihl pfx
            (seen ++ [c] ++
              (walkPairs (childrenOf root comments) (f + 1) (displayIdOf c)
                (pfx ++ if rest.isEmpty then "   " else "│  ")).map (fun e => e.2.2))
            k (fun x hx => hl x (List.mem_cons_of_mem _ hx)) ?_
          · exact this
          · rcases hk with h1 | ⟨p, hp, hdp⟩
            · exact Or.inl h1
            · exact Or.inr ⟨p, List.mem_append_left _ (List.mem_append_left _ hp), hdp⟩

/-- C6: the assembled timeline renders a post's comments depth-first
with each comment grouped under its parent id — (i) every `by_parent`
bucket lists siblings in ascending `_safe_text` timestamp order,
(ii) the walk never emits a comment before its parent: each emitted
comment either hangs directly under the root post key or its parent is a
previously emitted comment, and (iii) concretely, for root R with
comment A replying to R and comment B replying to A, the rendering shows
A before B, A nested at depth 1 (prefix `"  "`) and B at depth 2
(prefix `"     "`), both under R. -/
theorem commentTree_depth_first_rendering :
    formatCommentTree "post-r"
      [{ comment_id := "a", parent_id := some "post-r", depth := 1, timestamp := "t1",
         content := "hi", author_id := some "u1", author_name := some "Alice" },
       { comment_id := "b", parent_id := some "a", depth := 2, timestamp := "t2",
         content := "yo", author_id := some "u2", author_name := some "Bob" }]
      = ["  └─ 评论 `comment_id=a` @Alice: hi",
         "     └─ 评论 `comment_id=b` @Bob: yo"] ∧
    (∀ (root : String) (comments : List TimelineCommentRow) (k : String),
      List.Chain' (fun a b =>
        strLe (safeText (some a.timestamp)) (safeText (some b.timestamp)) = true)
        (childrenOf root comments k)) ∧
    (∀ (root : String) (comments : List TimelineCommentRow) (fuel : Nat),
      ParentsSeen root [] (walkPairs (childrenOf root comments) fuel root "  ")) := by
  refine ⟨by decide, ?_, ?_⟩
  · intro root comments k
    exact chain_sortAsc _ (fun a b => strLe_total _ _) _
  · intro root comments fuel
    cases fuel with
    | zero => exact trivial
    | succ f =>
      exact walkSiblings_parentsSeen root comments f (childrenOf root comments root)
        "  " [] root (fun c hc => mem_childrenOf root comments root c hc) (Or.inl rfl)

/-- Helper: a `find?` over a filtered list equals the unfiltered one
when the search predicate already implies the filter. -/
theorem find?_filter_of_imp {β : Type} (p q : β → Bool) :
    ∀ l : List β, (∀ x ∈ l, p x = true → q x = true) →
    (l.filter q).find? p = l.find? p := by
  intro l
  induction l with
  | nil => intro _; rfl
  | cons x xs ih =>
    intro h
    by_cases hp : p x = true
    · have hq := h x (List.mem_cons_self x xs) hp
      rw [List.filter_cons_of_pos hq, List.find?_cons_of_pos _ hp,
        List.find?_cons_of_pos _ hp]
    · have hrest := ih (fun y hy => h y (List.mem_cons_of_mem _ hy))
      by_cases hq : q x = true
      · rw [List.filter_cons_of_pos hq, List.find?_cons_of_neg _ hp,
          List.find?_cons_of_neg _ hp, hrest]
      · rw [List.filter_cons_of_neg (by simpa using hq), List.find?_cons_of_neg _ hp,
          hrest]

/-- Helper: pointwise-justified replacement of a `flatMap` over a
filtered list by one over the whole list. -/
theorem flatMap_filter_congr {β γ : Type} (q : β → Bool) (f g : β → List γ) :
    ∀ l : List β,
    (∀ e ∈ l, q e = false → f e = []) →
    (∀ e ∈ l, q e = true → g e = f e) →
    (l.filter q).flatMap g = l.flatMap f := by
  intro l
  induction l with
  | nil => intro _ _; rfl
  | cons x xs ih =>
    intro h1 h2
    have hrest := ih (fun e he => h1 e (List.mem_cons_of_mem _ he))
      (fun e he => h2 e (List.mem_cons_of_mem _ he))
    by_cases hq : q x = true
    · rw [List.filter_cons_of_pos hq]
      simp only [List.flatMap_cons, hrest, h2 x (List.mem_cons_self x xs) hq]
    · rw [List.filter_cons_of_neg (by simpa using hq)]
      simp only [List.flatMap_cons, hrest,
        h1 x (List.mem_cons_self x xs) (by simpa using hq), List.nil_append]

/-- Helper: pointwise-justified replacement of a `filterMap` over a
filtered list by one over the whole list. -/
theorem filterMap_filter_congr {β γ : Type} (q : β → Bool) (f g : β → Option γ) :
    ∀ l : List β,
    (∀ e ∈ l, q e = false → f e = none) →
    (∀ e ∈ l, q e = true → g e = f e) →
    (l.filter q).filterMap g = l.filterMap f := by
  intro l
  induction l with
  | nil => intro _ _; rfl
  | cons x xs ih =>
    intro h1 h2
    have hrest := ih (fun e he => h1 e (List.mem_cons_of_mem _ he))
      (fun e he => h2 e (List.mem_cons_of_mem _ he))
    by_cases hq : q x = true
    · rw [List.filter_cons_of_pos hq]
      simp only [List.filterMap_cons, hrest, h2 x (List.mem_cons_self x xs) hq]
    · rw [List.filter_cons_of_neg (by simpa using hq)]
      simp only [List.filterMap_cons, hrest,
        h1 x (List.mem_cons_self x xs) (by simpa using hq)]

/-- Helper: the session flag of a keyed lookup is unchanged by appending
nodes of other sessions. -/
theorem sessionFlag_append {β : Type} (key : β → Nat) (sess : β → String)
    (l lnew : List β) (s2 : String) (h : ∀ n ∈ lnew, ¬ sess n = s2) (nid : Nat) :
    sessFlag sess s2 ((l ++ lnew).find? (fun n => key n == nid))
      = sessFlag sess s2 (l.find? (fun n => key n == nid)) := by
  rw [List.find?_append]
  cases hfl : l.find? (fun n => key n == nid) with
  | some n => rfl
  | none =>
    cases hfn : lnew.find? (fun n => key n == nid) with
    | none => rfl
    | some n =>
      have hmem := List.mem_of_find?_eq_some hfn
      simp [sessFlag, h n hmem]

/-- Helper: `entInSession` through `sessFlag`. -/
theorem entInSession_eq (st : GraphState) (s2 : String) (nid : Nat) :
    entInSession st s2 nid
      = sessFlag (fun n => n.session_id) s2 (lookupEntityById st nid) := by
  unfold entInSession
  cases lookupEntityById st nid <;> rfl

/-- Helper: `postInSession` through `sessFlag`. -/
theorem postInSession_eq (st : GraphState) (s2 : String) (nid : Nat) :
    postInSession st s2 nid
      = sessFlag (fun p => p.session_id) s2 (lookupPostById st nid) := by
  unfold postInSession
  cases lookupPostById st nid <;> rfl

/-- Helper: `eventInSession` through `sessFlag`. -/
theorem eventInSession_eq (st : GraphState) (s2 : String) (nid : Nat) :
    eventInSession st s2 nid
      = sessFlag (fun v => v.session_id) s2 (lookupEventById st nid) := by
  unfold eventInSession
  cases lookupEventById st nid <;> rfl

/-- Helper: with distinct keys, a keyed lookup of a member finds exactly
that member. -/
theorem find?_key_of_mem {β : Type} (key : β → Nat) :
    ∀ l : List β, (l.map key).Nodup → ∀ x ∈ l, l.find? (fun n => key n == key x) = some x := by
  intro l
  induction l with
  | nil => intro _ x hx; simp at hx
  | cons y ys ih =>
    intro hnd x hx
    rw [List.map_cons, List.nodup_cons] at hnd
    rcases List.mem_cons.mp hx with rfl | hx2
    · exact List.find?_cons_of_pos _ (by simp)
    · have hne : (key y == key x) = false := by
        simp only [beq_eq_false_iff_ne, ne_eq]
        intro he
        exact hnd.1 (he ▸ List.mem_map_of_mem key hx2)
      simp only [List.find?_cons, hne]
      exact ih hnd.2 x hx2

/-- Helper: a state change that only appends nodes of a session other
than `s2` and edges that the `s2` slice drops leaves the `s2` slice of
the store unchanged. -/
theorem restrict_frame_append (s2 : String) (st st2 : GraphState)
    (eNew : List EntityNode) (pNew : List PostNode)
    (dP dR : List (Nat × Nat)) (dL : List LikedEdge)
    (hE : st2.entities = st.entities ++ eNew)
    (hP : st2.posts = st.posts ++ pNew)
    (hEv : st2.events = st.events)
    (hPE : st2.postedEdges = st.postedEdges ++ dP)
    (hRE : st2.repliedEdges = st.repliedEdges ++ dR)
    (hLE : st2.likedEdges = st.likedEdges ++ dL)
    (hIE : st2.initiatedEdges = st.initiatedEdges)
    (hTE : st2.targetedEdges = st.targetedEdges)
    (heNew : ∀ n ∈ eNew, ¬ n.session_id = s2)
    (hpNew : ∀ p ∈ pNew, ¬ p.session_id = s2)
    (hdP : ∀ d ∈ dP, (entInSession st2 s2 d.1 && postInSession st2 s2 d.2) = false)
    (hdR : ∀ d ∈ dR, (postInSession st2 s2 d.1 && postInSession st2 s2 d.2) = false)
    (hdL : ∀ d ∈ dL, (entInSession st2 s2 d.src && postInSession st2 s2 d.dst) = false) :
    restrictSession s2 st2 = restrictSession s2 st := by
  have hent : ∀ nid, entInSession st2 s2 nid = entInSession st s2 nid := by
    intro nid
    rw [entInSession_eq, entInSession_eq]
    unfold lookupEntityById
    rw [hE]
    exact sessionFlag_append (fun n => n.nodeId) (fun n => n.session_id)
      st.entities eNew s2 heNew nid
  have hpost : ∀ nid, postInSession st2 s2 nid = postInSession st s2 nid := by
    intro nid
    rw [postInSession_eq, postInSession_eq]
    unfold lookupPostById
    rw [hP]
    exact sessionFlag_append (fun p => p.nodeId) (fun p => p.session_id)
      st.posts pNew s2 hpNew nid
  have hevt : ∀ nid, eventInSession st2 s2 nid = eventInSession st s2 nid := by
    intro nid
    rw [eventInSession_eq, eventInSession_eq]
    unfold lookupEventById
    rw [hEv]
  unfold restrictSession
  rw [GraphState.mk.injEq]
  refine ⟨rfl, ?_, ?_, ?_, ?_, ?_, ?_, ?_, ?_⟩
  · have h1 : eNew.filter (fun n => n.session_id == s2) = [] :=
      List.filter_eq_nil_iff.mpr (by
        intro n hn
        simp only [beq_iff_eq]
        exact heNew n hn)
    rw [hE, List.filter_append, h1, List.append_nil]
  · have h1 : pNew.filter (fun p => p.session_id == s2) = [] :=
      List.filter_eq_nil_iff.mpr (by
        intro p hp
        simp only [beq_iff_eq]
        exact hpNew p hp)
    rw [hP, List.filter_append, h1, List.append_nil]
  · rw [hEv]
  · have h1 : dP.filter (fun e => entInSession st2 s2 e.1 && postInSession st2 s2 e.2) = [] :=
      List.filter_eq_nil_iff.mpr (by intro d hd; simp [hdP d hd])
    rw [hPE, List.filter_append, h1, List.append_nil]
    exact List.filter_congr (fun d _ => by rw [hent, hpost])
  · have h1 : dR.filter (fun e => postInSession st2 s2 e.1 && postInSession st2 s2 e.2) = [] :=
      List.filter_eq_nil_iff.mpr (by intro d hd; simp [hdR d hd])
    rw [hRE, List.filter_append, h1, List.append_nil]
    exact List.filter_congr (fun d _ => by rw [hpost, hpost])
  · have h1 : dL.filter (fun e => entInSession st2 s2 e.src && postInSession st2 s2 e.dst) = [] :=
      List.filter_eq_nil_iff.mpr (by intro d hd; simp [hdL d hd])
    rw [hLE, List.filter_append, h1, List.append_nil]
    exact List.filter_congr (fun d _ => by rw [hent, hpost])
  · rw [hIE]
    exact List.filter_congr (fun d _ => by rw [hent, hevt])
  · rw [hTE]
    exact List.filter_congr (fun d _ => by rw [hevt, hent])

/-- Helper: pointwise congruence of `flatMap`. -/
theorem flatMap_congr_mem {β γ : Type} (f g : β → List γ) :
    ∀ l : List β, (∀ x ∈ l, f x = g x) → l.flatMap f = l.flatMap g := by
  intro l
  induction l with
  | nil => intro _; rfl
  | cons x xs ih =>
    intro h
    simp only [List.flatMap_cons, h x (List.mem_cons_self x xs),
      ih (fun y hy => h y (List.mem_cons_of_mem _ hy))]

/-- Helper: a `flatMap` over a `filterMap` collapses to one `flatMap`
when the selector's hits and misses are accounted for pointwise. -/
theorem flatMap_filterMap_congr {β γ δ : Type} (f : β → Option γ) (g : γ → List δ)
    (h : β → List δ) :
    ∀ l : List β,
    (∀ x ∈ l, ∀ y, f x = some y → g y = h x) →
    (∀ x ∈ l, f x = none → h x = []) →
    (l.filterMap f).flatMap g = l.flatMap h := by
  intro l
  induction l with
  | nil => intro _ _; rfl
  | cons x xs ih =>
    intro h1 h2
    have hrest := ih (fun y hy => h1 y (List.mem_cons_of_mem _ hy))
      (fun y hy => h2 y (List.mem_cons_of_mem _ hy))
    cases hf : f x with
    | some y =>
      simp only [List.filterMap_cons, hf, List.flatMap_cons, hrest,
        h1 x (List.mem_cons_self x xs) y hf]
    | none =>
      simp only [List.filterMap_cons, hf, List.flatMap_cons, hrest,
        h2 x (List.mem_cons_self x xs) hf, List.nil_append]

/-- Helper: a keyed lookup that misses also misses on any sublist kept
by a filter. -/
theorem find?_filter_none {β : Type} (p q : β → Bool) (l : List β)
    (h : l.find? p = none) : (l.filter q).find? p = none := by
  rw [List.find?_eq_none] at h ⊢
  intro x hx
  exact h x (List.mem_of_mem_filter hx)

/-- Helper: with distinct keys, filtering by a predicate the found
element satisfies does not change a keyed lookup. -/
theorem find?_filter_key_some {β : Type} (key : β → Nat) (q : β → Bool) :
    ∀ l : List β, (l.map key).Nodup → ∀ k x,
    l.find? (fun e => key e == k) = some x → q x = true →
    (l.filter q).find? (fun e => key e == k) = some x := by
  intro l
  induction l with
  | nil => intro _ k x hx; simp at hx
  | cons y ys ih =>
    intro hnd k x hfind hq
    rw [List.map_cons, List.nodup_cons] at hnd
    by_cases hpy : (key y == k) = true
    · simp only [List.find?_cons, hpy] at hfind
      cases hfind
      rw [List.filter_cons_of_pos hq]
      simp only [List.find?_cons, hpy]
    · have hpy2 : (key y == k) = false := by simpa using hpy
      simp only [List.find?_cons, hpy2] at hfind
      by_cases hqy : q y = true
      · rw [List.filter_cons_of_pos hqy]
        simp only [List.find?_cons, hpy2]
        exact ih hnd.2 k x hfind hq
      · rw [List.filter_cons_of_neg (by simpa using hqy)]
        exact ih hnd.2 k x hfind hq

/-- Helper: with distinct keys, a keyed lookup misses after filtering
out the found element. -/
theorem find?_filter_key_drop {β : Type} (key : β → Nat) (q : β → Bool) :
    ∀ l : List β, (l.map key).Nodup → ∀ k x,
    l.find? (fun e => key e == k) = some x → q x = false →
    (l.filter q).find? (fun e => key e == k) = none := by
  intro l
  induction l with
  | nil => intro _ k x hx; simp at hx
  | cons y ys ih =>
    intro hnd k x hfind hq
    rw [List.map_cons, List.nodup_cons] at hnd
    by_cases hpy : (key y == k) = true
    · simp only [List.find?_cons, hpy] at hfind
      cases hfind
      rw [List.filter_cons_of_neg (by simpa using hq)]
      rw [List.find?_eq_none]
      intro z hz
      have hzmem := List.mem_of_mem_filter hz
      simp only [beq_iff_eq]
      intro hkz
      apply hnd.1
      have hyk : key y = k := by simpa using hpy
      rw [hyk, ← hkz]
      exact List.mem_map_of_mem key hzmem
    · have hpy2 : (key y == k) = false := by simpa using hpy
      simp only [List.find?_cons, hpy2] at hfind
      by_cases hqy : q y = true
      · rw [List.filter_cons_of_pos hqy]
        simp only [List.find?_cons, hpy2]
        exact ih hnd.2 k x hfind hq
      · rw [List.filter_cons_of_neg (by simpa using hqy)]
        exact ih hnd.2 k x hfind hq

/-- Helper: a keyed lookup misses beyond the id bound. -/
theorem find?_key_ge {β : Type} (key : β → Nat) (l : List β) (b k : Nat)
    (h : ∀ x ∈ l, key x < b) (hk : b ≤ k) :
    l.find? (fun x => key x == k) = none := by
  rw [List.find?_eq_none]
  intro x hx
  simp only [beq_iff_eq]
  have := h x hx
  omega

/-- Helper: a pick's element is a member, its rest is a sublist of
members, and picking removes exactly one element. -/
theorem picks_mem {β : Type} :
    ∀ (l : List β) (pr : β × List β), pr ∈ picks l →
      pr.1 ∈ l ∧ (∀ y ∈ pr.2, y ∈ l) ∧ pr.2.length + 1 = l.length := by
  intro l
  induction l with
  | nil => intro pr hpr; simp [picks] at hpr
  | cons x xs ih =>
    intro pr hpr
    simp only [picks] at hpr
    rcases List.mem_cons.mp hpr with rfl | hpr2
    · exact ⟨List.mem_cons_self x xs, fun y hy => List.mem_cons_of_mem _ hy, rfl⟩
    · rcases List.mem_map.mp hpr2 with ⟨q, hq, rfl⟩
      rcases ih q hq with ⟨h1, h2, h3⟩
      refine ⟨List.mem_cons_of_mem _ h1, ?_, ?_⟩
      · intro y hy
        rcases List.mem_cons.mp hy with rfl | hy2
        · exact List.mem_cons_self _ _
        · exact List.mem_cons_of_mem _ (h2 y hy2)
      · simp only [List.length_cons]
        omega

/-- Helper: pointwise congruence of `filterMap`. -/
theorem filterMap_congr_mem {β γ : Type} (f g : β → Option γ) :
    ∀ l : List β, (∀ x ∈ l, f x = g x) → l.filterMap f = l.filterMap g := by
  intro l
  induction l with
  | nil => intro _; rfl
  | cons x xs ih =>
    intro h
    simp only [List.filterMap_cons, h x (List.mem_cons_self x xs),
      ih (fun y hy => h y (List.mem_cons_of_mem _ hy))]

/-- Helper: the picks of a filtered list are the kept picks with their
rests filtered. -/
theorem picks_filter {β : Type} (q : β → Bool) :
    ∀ l : List β,
    picks (l.filter q)
      = (picks l).filterMap (fun pr =>
          if q pr.1 then some (pr.1, pr.2.filter q) else none) := by
  intro l
  induction l with
  | nil => rfl
  | cons x xs ih =>
    by_cases hqx : q x = true
    · rw [List.filter_cons_of_pos hqx]
      simp only [picks, ih, List.filterMap_cons, hqx, if_pos, List.map_filterMap,
        List.filterMap_map]
      congr 1
      apply filterMap_congr_mem
      intro pr hpr
      simp only [Function.comp]
      by_cases hq : q pr.1 = true
      · rw [if_pos hq, if_pos hq, List.filter_cons_of_pos hqx]
        rfl
      · rw [if_neg hq, if_neg hq]
        rfl
    · rw [List.filter_cons_of_neg (by simpa using hqx)]
      have hqx2 : q x = false := by simpa using hqx
      simp only [picks, ih, List.filterMap_cons, List.filterMap_map]
      rw [if_neg (by simp [hqx2])]
      apply filterMap_congr_mem
      intro pr hpr
      simp only [Function.comp]
      by_cases hq : q pr.1 = true
      · rw [if_pos hq, if_pos hq, List.filter_cons_of_neg (by simp [hqx2])]
      · rw [if_neg hq, if_neg hq]

/-- Helper: on the empty edge list the path search yields nothing at any
fuel. -/
theorem pathsToFuel_nil (t : Nat) : ∀ fuel, pathsToFuel fuel [] t = [] := by
  intro fuel
  cases fuel with
  | zero => rfl
  | succ f => rfl

/-- Helper: the path search is insensitive to the fuel once the fuel
covers the number of available edges. -/
theorem pathsToFuel_fuel_ge :
    ∀ (n : Nat) (avail : List (Nat × Nat)) (t : Nat) (f1 f2 : Nat),
    avail.length = n → n ≤ f1 → n ≤ f2 →
    pathsToFuel f1 avail t = pathsToFuel f2 avail t := by
  intro n
  induction n with
  | zero =>
    intro avail t f1 f2 hlen _ _
    have : avail = [] := List.length_eq_zero.mp hlen
    subst this
    rw [pathsToFuel_nil, pathsToFuel_nil]
  | succ m ih =>
    intro avail t f1 f2 hlen h1 h2
    cases f1 with
    | zero => omega
    | succ k1 =>
      cases f2 with
      | zero => omega
      | succ k2 =>
        simp only [pathsToFuel]
        apply flatMap_congr_mem
        intro pe hpe
        by_cases ht : (pe.1.2 == t) = true
        · rw [if_pos ht, if_pos ht]
          have hlen2 := (picks_mem avail pe hpe).2.2
          rw [ih pe.2 pe.1.1 k1 k2 (by omega) (by omega) (by omega)]
        · rw [if_neg ht, if_neg ht]

/-- Helper: filtering the edge list by a flag that, by propagation from
the target, every edge reachable backwards from the target satisfies,
does not change the path search. -/
theorem pathsToFuel_filter_inv (p : Nat → Bool) (q : Nat × Nat → Bool) :
    ∀ fuel (avail : List (Nat × Nat)) (t : Nat),
    (∀ e ∈ avail, p e.2 = true → q e = true ∧ p e.1 = true) →
    p t = true →
    pathsToFuel fuel (avail.filter q) t = pathsToFuel fuel avail t := by
  intro fuel
  induction fuel with
  | zero => intro avail t _ _; rfl
  | succ f ih =>
    intro avail t hprop hpt
    simp only [pathsToFuel]
    rw [picks_filter]
    apply flatMap_filterMap_congr _ _ _ (picks avail)
    · intro pr hpr y hy
      by_cases hq : q pr.1 = true
      · rw [if_pos hq] at hy
        cases hy
        have hmem := picks_mem avail pr hpr
        by_cases ht : (pr.1.2 == t) = true
        · rw [if_pos ht, if_pos ht]
          have hteq : pr.1.2 = t := by simpa using ht
          have hp1 : p pr.1.1 = true :=
            (hprop pr.1 hmem.1 (by rw [hteq]; exact hpt)).2
          rw [ih pr.2 pr.1.1 (fun e he hpe => hprop e (hmem.2.1 e he) hpe) hp1]
        · rw [if_neg ht, if_neg ht]
      · rw [if_neg hq] at hy
        cases hy
    · intro pr hpr hnone
      by_cases hq : q pr.1 = true
      · rw [if_pos hq] at hnone
        cases hnone
      · have hmem := picks_mem avail pr hpr
        have ht : (pr.1.2 == t) = false := by
          by_contra hcon
          have ht2 : (pr.1.2 == t) = true := by
            cases hb : (pr.1.2 == t) with
            | false => exact absurd hb hcon
            | true => rfl
          have hteq : pr.1.2 = t := by simpa using ht2
          exact hq (hprop pr.1 hmem.1 (by rw [hteq]; exact hpt)).1
        rw [if_neg (by simp [ht])]

/-- Helper: filtering the edge list by such a propagated flag does not
change `pathsTo` (whose fuel is the edge-list length). -/
theorem pathsTo_filter_inv (p : Nat → Bool) (q : Nat × Nat → Bool)
    (avail : List (Nat × Nat)) (t : Nat)
    (hprop : ∀ e ∈ avail, p e.2 = true → q e = true ∧ p e.1 = true)
    (hpt : p t = true) :
    pathsTo (avail.filter q) t = pathsTo avail t := by
  unfold pathsTo
  rw [pathsToFuel_fuel_ge (avail.filter q).length (avail.filter q) t
    (avail.filter q).length avail.length rfl (le_refl _) (List.length_filter_le q avail)]
  exact pathsToFuel_filter_inv p q avail.length avail t hprop hpt

/-- Helper: every path found backwards from a target satisfying a
propagated node flag starts and steps through nodes satisfying it; in
particular its start node and its first replied-to node do. -/
theorem pathsToFuel_mem_prop (p : Nat → Bool) :
    ∀ fuel (avail : List (Nat × Nat)) (t : Nat),
    (∀ e ∈ avail, p e.2 = true → p e.1 = true) → p t = true →
    ∀ r ∈ pathsToFuel fuel avail t, p r.1 = true ∧ p r.2.1 = true := by
  intro fuel
  induction fuel with
  | zero => intro avail t _ _ r hr; simp [pathsToFuel] at hr
  | succ f ih =>
    intro avail t hprop hpt r hr
    simp only [pathsToFuel, List.mem_flatMap] at hr
    rcases hr with ⟨pe, hpe, hbody⟩
    have hmem := picks_mem avail pe hpe
    by_cases ht : (pe.1.2 == t) = true
    · rw [if_pos ht] at hbody
      have hteq : pe.1.2 = t := by simpa using ht
      have hp1 : p pe.1.1 = true := hprop pe.1 hmem.1 (by rw [hteq]; exact hpt)
      rcases List.mem_cons.mp hbody with rfl | hin
      · exact ⟨hp1, hpt⟩
      · rcases List.mem_map.mp hin with ⟨r0, hr0, rfl⟩
        exact ih pe.2 pe.1.1 (fun e he hpe2 => hprop e (hmem.2.1 e he) hpe2) hp1 r0 hr0
    · rw [if_neg ht] at hbody
      simp at hbody

/-- Helper: split a well-formedness witness into its two parts. -/
theorem graphWellFormed_props (st : GraphState) (h : graphWellFormed st = true) :
    (allNodeIds st).Nodup ∧ sessionClosed st = true := by
  unfold graphWellFormed at h
  exact of_decide_eq_true h

/-- Helper: distinct node ids across the store give distinct entity ids. -/
theorem nodupIds_entities (st : GraphState) (h : (allNodeIds st).Nodup) :
    (st.entities.map (fun n => n.nodeId)).Nodup := by
  unfold allNodeIds at h
  exact h.sublist ((List.sublist_append_left _ _).trans (List.sublist_append_left _ _))

/-- Helper: distinct node ids across the store give distinct post ids. -/
theorem nodupIds_posts (st : GraphState) (h : (allNodeIds st).Nodup) :
    (st.posts.map (fun p => p.nodeId)).Nodup := by
  unfold allNodeIds at h
  exact h.sublist ((List.sublist_append_right _ _).trans (List.sublist_append_left _ _))

/-- Helper: distinct node ids across the store give distinct event ids. -/
theorem nodupIds_events (st : GraphState) (h : (allNodeIds st).Nodup) :
    (st.events.map (fun v => v.nodeId)).Nodup := by
  unfold allNodeIds at h
  exact h.sublist (List.sublist_append_right _ _)

/-- Helper: session closure propagates backwards along REPLIED_TO
edges: if the replied-to side is a session-`s` post, so is the
replying side. -/
theorem closed_replied_prop (st : GraphState) (s : String)
    (hsc : sessionClosed st = true) :
    ∀ e ∈ st.repliedEdges, postInSession st s e.2 = true → postInSession st s e.1 = true := by
  intro e he hp2
  have hall : st.repliedEdges.all (fun e =>
      match lookupPostById st e.1, lookupPostById st e.2 with
      | some c, some p => c.session_id == p.session_id
      | _, _ => false) = true := by
    unfold sessionClosed at hsc
    simp only [Bool.and_eq_true] at hsc
    exact hsc.1.1.1.2
  have hfact := List.all_eq_true.mp hall e he
  cases h1 : lookupPostById st e.1 with
  | none =>
    cases h2 : lookupPostById st e.2 with
    | none => simp [h1, h2] at hfact
    | some p => simp [h1, h2] at hfact
  | some c =>
    cases h2 : lookupPostById st e.2 with
    | none => simp [h1, h2] at hfact
    | some p =>
      simp only [h1, h2] at hfact
      rw [postInSession_eq, h2] at hp2
      rw [postInSession_eq, h1]
      simp only [sessFlag, beq_iff_eq] at hfact hp2 ⊢
      rw [hfact, hp2]

/-- Helper: with distinct ids, looking a member entity up by its node
id finds it. -/
theorem lookupEntity_of_mem (st : GraphState)
    (hnd : (st.entities.map (fun n => n.nodeId)).Nodup)
    (n : EntityNode) (hn : n ∈ st.entities) :
    lookupEntityById st n.nodeId = some n :=
  by
  unfold lookupEntityById
  exact find?_key_of_mem (fun x : EntityNode => x.nodeId) st.entities hnd n hn

/-- Helper: with distinct ids, looking a member post up by its node id
finds it. -/
theorem lookupPost_of_mem (st : GraphState)
    (hnd : (st.posts.map (fun p => p.nodeId)).Nodup)
    (p : PostNode) (hp : p ∈ st.posts) :
    lookupPostById st p.nodeId = some p :=
  by
  unfold lookupPostById
  exact find?_key_of_mem (fun x : PostNode => x.nodeId) st.posts hnd p hp

/-- Helper: with distinct ids, looking a member event up by its node id
finds it. -/
theorem lookupEvent_of_mem (st : GraphState)
    (hnd : (st.events.map (fun v => v.nodeId)).Nodup)
    (v : EventNode) (hv : v ∈ st.events) :
    lookupEventById st v.nodeId = some v :=
  by
  unfold lookupEventById
  exact find?_key_of_mem (fun x : EventNode => x.nodeId) st.events hnd v hv

/-- Helper: a member session-`s` entity passes the session test at its
node id. -/
theorem entInSession_of_mem (st : GraphState) (s : String)
    (hnd : (st.entities.map (fun n => n.nodeId)).Nodup)
    (n : EntityNode) (hn : n ∈ st.entities) (hs : (n.session_id == s) = true) :
    entInSession st s n.nodeId = true := by
  rw [entInSession_eq, lookupEntity_of_mem st hnd n hn]
  simpa [sessFlag] using hs

/-- Helper: a member session-`s` post passes the session test at its
node id. -/
theorem postInSession_of_mem (st : GraphState) (s : String)
    (hnd : (st.posts.map (fun p => p.nodeId)).Nodup)
    (p : PostNode) (hp : p ∈ st.posts) (hs : (p.session_id == s) = true) :
    postInSession st s p.nodeId = true := by
  rw [postInSession_eq, lookupPost_of_mem st hnd p hp]
  simpa [sessFlag] using hs

/-- Helper: a member session-`s` event passes the session test at its
node id. -/
theorem eventInSession_of_mem (st : GraphState) (s : String)
    (hnd : (st.events.map (fun v => v.nodeId)).Nodup)
    (v : EventNode) (hv : v ∈ st.events) (hs : (v.session_id == s) = true) :
    eventInSession st s v.nodeId = true := by
  rw [eventInSession_eq, lookupEvent_of_mem st hnd v hv]
  simpa [sessFlag] using hs

/-- Helper: restriction preserves the lookup of an in-session entity. -/
theorem lookupEntity_restrict_in (st : GraphState) (s : String) (nid : Nat)
    (hnd : (st.entities.map (fun n => n.nodeId)).Nodup)
    (h : entInSession st s nid = true) :
    lookupEntityById (restrictSession s st) nid = lookupEntityById st nid := by
  rw [entInSession_eq] at h
  cases hl : lookupEntityById st nid with
  | none => rw [hl] at h; simp [sessFlag] at h
  | some n =>
    rw [hl] at h
    simp only [sessFlag] at h
    show (st.entities.filter (fun x => x.session_id == s)).find?
      (fun x => x.nodeId == nid) = some n
    exact find?_filter_key_some (fun x : EntityNode => x.nodeId) _ st.entities hnd nid n hl h

/-- Helper: restriction erases the lookup of an out-of-session entity. -/
theorem lookupEntity_restrict_out (st : GraphState) (s : String) (nid : Nat)
    (hnd : (st.entities.map (fun n => n.nodeId)).Nodup)
    (h : entInSession st s nid = false) :
    lookupEntityById (restrictSession s st) nid = none := by
  rw [entInSession_eq] at h
  show (st.entities.filter (fun x => x.session_id == s)).find?
    (fun x => x.nodeId == nid) = none
  cases hl : lookupEntityById st nid with
  | none => exact find?_filter_none _ _ st.entities hl
  | some n =>
    rw [hl] at h
    simp only [sessFlag] at h
    exact find?_filter_key_drop (fun x : EntityNode => x.nodeId) _ st.entities hnd nid n hl h

/-- Helper: restriction preserves the lookup of an in-session post. -/
theorem lookupPost_restrict_in (st : GraphState) (s : String) (nid : Nat)
    (hnd : (st.posts.map (fun p => p.nodeId)).Nodup)
    (h : postInSession st s nid = true) :
    lookupPostById (restrictSession s st) nid = lookupPostById st nid := by
  rw [postInSession_eq] at h
  cases hl : lookupPostById st nid with
  | none => rw [hl] at h; simp [sessFlag] at h
  | some p =>
    rw [hl] at h
    simp only [sessFlag] at h
    show (st.posts.filter (fun x => x.session_id == s)).find?
      (fun x => x.nodeId == nid) = some p
    exact find?_filter_key_some (fun x : PostNode => x.nodeId) _ st.posts hnd nid p hl h

/-- Helper: restriction erases the lookup of an out-of-session post. -/
theorem lookupPost_restrict_out (st : GraphState) (s : String) (nid : Nat)
    (hnd : (st.posts.map (fun p => p.nodeId)).Nodup)
    (h : postInSession st s nid = false) :
    lookupPostById (restrictSession s st) nid = none := by
  rw [postInSession_eq] at h
  show (st.posts.filter (fun x => x.session_id == s)).find?
    (fun x => x.nodeId == nid) = none
  cases hl : lookupPostById st nid with
  | none => exact find?_filter_none _ _ st.posts hl
  | some p =>
    rw [hl] at h
    simp only [sessFlag] at h
    exact find?_filter_key_drop (fun x : PostNode => x.nodeId) _ st.posts hnd nid p hl h

/-- Helper: restriction preserves the lookup of an in-session event. -/
theorem lookupEvent_restrict_in (st : GraphState) (s : String) (nid : Nat)
    (hnd : (st.events.map (fun v => v.nodeId)).Nodup)
    (h : eventInSession st s nid = true) :
    lookupEventById (restrictSession s st) nid = lookupEventById st nid := by
  rw [eventInSession_eq] at h
  cases hl : lookupEventById st nid with
  | none => rw [hl] at h; simp [sessFlag] at h
  | some v =>
    rw [hl] at h
    simp only [sessFlag] at h
    show (st.events.filter (fun x => x.session_id == s)).find?
      (fun x => x.nodeId == nid) = some v
    exact find?_filter_key_some (fun x : EventNode => x.nodeId) _ st.events hnd nid v hl h

/-- Helper: restriction erases the lookup of an out-of-session event. -/
theorem lookupEvent_restrict_out (st : GraphState) (s : String) (nid : Nat)
    (hnd : (st.events.map (fun v => v.nodeId)).Nodup)
    (h : eventInSession st s nid = false) :
    lookupEventById (restrictSession s st) nid = none := by
  rw [eventInSession_eq] at h
  show (st.events.filter (fun x => x.session_id == s)).find?
    (fun x => x.nodeId == nid) = none
  cases hl : lookupEventById st nid with
  | none => exact find?_filter_none _ _ st.events hl
  | some v =>
    rw [hl] at h
    simp only [sessFlag] at h
    exact find?_filter_key_drop (fun x : EventNode => x.nodeId) _ st.events hnd nid v hl h

/-- Helper: the id counter dominates every entity node id. -/
theorem nextIdFresh_entities (st : GraphState) (h : nextIdFresh st = true) :
    ∀ n ∈ st.entities, n.nodeId < st.nextId := by
  intro n hn
  unfold nextIdFresh at h
  have hmem : n.nodeId ∈ allNodeIds st := by
    unfold allNodeIds
    simp only [List.mem_append, List.mem_map]
    exact Or.inl (Or.inl ⟨n, hn, rfl⟩)
  have h2 := List.all_eq_true.mp h n.nodeId hmem
  simpa using h2

/-- Helper: the id counter dominates every post node id. -/
theorem nextIdFresh_posts (st : GraphState) (h : nextIdFresh st = true) :
    ∀ p ∈ st.posts, p.nodeId < st.nextId := by
  intro p hp
  unfold nextIdFresh at h
  have hmem : p.nodeId ∈ allNodeIds st := by
    unfold allNodeIds
    simp only [List.mem_append, List.mem_map]
    exact Or.inl (Or.inr ⟨p, hp, rfl⟩)
  have h2 := List.all_eq_true.mp h p.nodeId hmem
  simpa using h2

/-- Helper: a boolean conjunction with a false right conjunct. -/
theorem and_eq_false_right {a b : Bool} (h : b = false) : (a && b) = false := by
  rw [h, Bool.and_false]

/-- Helper: a boolean conjunction with a false left conjunct. -/
theorem and_eq_false_left {a b : Bool} (h : a = false) : (a && b) = false := by
  rw [h, Bool.false_and]

/-- Helper: a freshly appended post of another session fails the
session test at its node id. -/
theorem postInSession_append_fresh (st : GraphState) (st2 : GraphState) (P : PostNode)
    (s2 : String) (hP : st2.posts = st.posts ++ [P])
    (hnone : st.posts.find? (fun p => p.nodeId == P.nodeId) = none)
    (hsess : ¬ P.session_id = s2) :
    postInSession st2 s2 P.nodeId = false := by
  rw [postInSession_eq]
  have hlk : lookupPostById st2 P.nodeId = some P := by
    unfold lookupPostById
    rw [hP, List.find?_append, hnone]
    simp [List.find?_cons]
  rw [hlk]
  simp only [sessFlag, beq_eq_false_iff_ne, ne_eq]
  exact hsess

/-- Helper: `create_post` invoked with one session leaves every other
session's slice of the store unchanged. -/
theorem createPost_frame (st : GraphState) (s a c pid ts s2 : String)
    (hs : ¬ s = s2) (hf : nextIdFresh st = true) :
    restrictSession s2 (createPost st s a c pid ts).2 = restrictSession s2 st := by
  have hposts := nextIdFresh_posts st hf
  simp only [createPost, mergeEntityPlain]
  cases hfe : findEntity st s a with
  | some n =>
    dsimp only
    refine restrict_frame_append s2 st _ [] [_] [_] [] []
      ((List.append_nil _).symm) rfl rfl rfl ((List.append_nil _).symm)
      ((List.append_nil _).symm) rfl rfl ?_ ?_ ?_ ?_ ?_
    · intro x hx; exact absurd hx (List.not_mem_nil x)
    · intro p hp
      rw [List.mem_singleton] at hp
      subst hp
      exact hs
    · intro d hd
      rw [List.mem_singleton] at hd
      subst hd
      apply and_eq_false_right
      dsimp only
      apply postInSession_append_fresh st _ { nodeId := st.nextId, session_id := s, post_id := pid, ptype := "ORIGINAL", content := c, timestamp := ts } s2
      · rfl
      · exact find?_key_ge (fun p : PostNode => p.nodeId) st.posts st.nextId _
          hposts (le_refl _)
      · exact hs
    · intro d hd; exact absurd hd (List.not_mem_nil d)
    · intro d hd; exact absurd hd (List.not_mem_nil d)
  | none =>
    dsimp only
    refine restrict_frame_append s2 st _ [_] [_] [_] [] []
      rfl rfl rfl rfl ((List.append_nil _).symm)
      ((List.append_nil _).symm) rfl rfl ?_ ?_ ?_ ?_ ?_
    · intro x hx
      rw [List.mem_singleton] at hx
      subst hx
      exact hs
    · intro p hp
      rw [List.mem_singleton] at hp
      subst hp
      exact hs
    · intro d hd
      rw [List.mem_singleton] at hd
      subst hd
      apply and_eq_false_right
      dsimp only
      apply postInSession_append_fresh st _ { nodeId := st.nextId + 1, session_id := s, post_id := pid, ptype := "ORIGINAL", content := c, timestamp := ts } s2
      · rfl
      · exact find?_key_ge (fun p : PostNode => p.nodeId) st.posts st.nextId _
          hposts (Nat.le_succ _)
      · exact hs
    · intro d hd; exact absurd hd (List.not_mem_nil d)
    · intro d hd; exact absurd hd (List.not_mem_nil d)

/-- Helper: `create_comment` invoked with one session leaves every
other session's slice of the store unchanged (a missing parent leaves
the whole store unchanged). -/
theorem createComment_frame (st : GraphState) (s a t c pid ts s2 : String)
    (hs : ¬ s = s2) (hf : nextIdFresh st = true) :
    restrictSession s2 (createCommentState st s a t c pid ts) = restrictSession s2 st := by
  have hposts := nextIdFresh_posts st hf
  simp only [createCommentState, createComment, mergeEntityPlain]
  cases hfp : findPostNode st s t with
  | none => rfl
  | some parent =>
    cases hfe : findEntity st s a with
    | some n =>
      dsimp only
      refine restrict_frame_append s2 st _ [] [_] [_] [_] []
        ((List.append_nil _).symm) rfl rfl rfl rfl
        ((List.append_nil _).symm) rfl rfl ?_ ?_ ?_ ?_ ?_
      · intro x hx; exact absurd hx (List.not_mem_nil x)
      · intro p hp
        rw [List.mem_singleton] at hp
        subst hp
        exact hs
      · intro d hd
        rw [List.mem_singleton] at hd
        subst hd
        apply and_eq_false_right
        dsimp only
        apply postInSession_append_fresh st _ { nodeId := st.nextId, session_id := s, post_id := pid, ptype := "COMMENT", content := c, timestamp := ts } s2
        · rfl
        · exact find?_key_ge (fun p : PostNode => p.nodeId) st.posts st.nextId _
            hposts (le_refl _)
        · exact hs
      · intro d hd
        rw [List.mem_singleton] at hd
        subst hd
        apply and_eq_false_left
        dsimp only
        apply postInSession_append_fresh st _ { nodeId := st.nextId, session_id := s, post_id := pid, ptype := "COMMENT", content := c, timestamp := ts } s2
        · rfl
        · exact find?_key_ge (fun p : PostNode => p.nodeId) st.posts st.nextId _
            hposts (le_refl _)
        · exact hs
      · intro d hd; exact absurd hd (List.not_mem_nil d)
    | none =>
      dsimp only
      refine restrict_frame_append s2 st _ [_] [_] [_] [_] []
        rfl rfl rfl rfl rfl
        ((List.append_nil _).symm) rfl rfl ?_ ?_ ?_ ?_ ?_
      · intro x hx
        rw [List.mem_singleton] at hx
        subst hx
        exact hs
      · intro p hp
        rw [List.mem_singleton] at hp
        subst hp
        exact hs
      · intro d hd
        rw [List.mem_singleton] at hd
        subst hd
        apply and_eq_false_right
        dsimp only
        apply postInSession_append_fresh st _ { nodeId := st.nextId + 1, session_id := s, post_id := pid, ptype := "COMMENT", content := c, timestamp := ts } s2
        · rfl
        · exact find?_key_ge (fun p : PostNode => p.nodeId) st.posts st.nextId _
            hposts (Nat.le_succ _)
        · exact hs
      · intro d hd
        rw [List.mem_singleton] at hd
        subst hd
        apply and_eq_false_left
        dsimp only
        apply postInSession_append_fresh st _ { nodeId := st.nextId + 1, session_id := s, post_id := pid, ptype := "COMMENT", content := c, timestamp := ts } s2
        · rfl
        · exact find?_key_ge (fun p : PostNode => p.nodeId) st.posts st.nextId _
            hposts (Nat.le_succ _)
        · exact hs
      · intro d hd; exact absurd hd (List.not_mem_nil d)

/-- Helper: `like_post` invoked with one session leaves every other
session's slice of the store unchanged (lookup failures and an already
existing edge leave the whole store unchanged). -/
theorem likePost_frame (st : GraphState) (s a t ts s2 : String)
    (hs : ¬ s = s2) (hnd : (allNodeIds st).Nodup) :
    restrictSession s2 (likePostState st s a t ts) = restrictSession s2 st := by
  simp only [likePostState, likePost]
  cases hfe : findEntity st s a with
  | none =>
    cases hfp : findPostNode st s t with
    | none => rfl
    | some post => rfl
  | some actor =>
    cases hfp : findPostNode st s t with
    | none => rfl
    | some post =>
      dsimp only
      cases hfind : st.likedEdges.find?
          (fun e => e.src == actor.nodeId && e.dst == post.nodeId) with
      | some edge => rfl
      | none =>
        dsimp only
        refine restrict_frame_append s2 st _ [] [] [] [] [_]
          ((List.append_nil _).symm) ((List.append_nil _).symm) rfl
          ((List.append_nil _).symm) ((List.append_nil _).symm) rfl rfl rfl
          ?_ ?_ ?_ ?_ ?_
        · intro x hx; exact absurd hx (List.not_mem_nil x)
        · intro p hp; exact absurd hp (List.not_mem_nil p)
        · intro d hd; exact absurd hd (List.not_mem_nil d)
        · intro d hd; exact absurd hd (List.not_mem_nil d)
        · intro d hd
          rw [List.mem_singleton] at hd
          subst hd
          apply and_eq_false_left
          dsimp only
          show entInSession st s2 actor.nodeId = false
          have hmem : actor ∈ st.entities := List.mem_of_find?_eq_some hfe
          have hpred := List.find?_some hfe
          simp only [Bool.and_eq_true, beq_iff_eq] at hpred
          rw [entInSession_eq, lookupEntity_of_mem st (nodupIds_entities st hnd) actor hmem]
          simp only [sessFlag, beq_eq_false_iff_ne, ne_eq, hpred.1.2]
          exact hs

/-- Helper: the entity slice of a restriction. -/
theorem restrict_entities (st : GraphState) (s : String) :
    (restrictSession s st).entities = st.entities.filter (fun n => n.session_id == s) := rfl

/-- Helper: the post slice of a restriction. -/
theorem restrict_posts (st : GraphState) (s : String) :
    (restrictSession s st).posts = st.posts.filter (fun p => p.session_id == s) := rfl

/-- Helper: the POSTED slice of a restriction. -/
theorem restrict_postedEdges (st : GraphState) (s : String) :
    (restrictSession s st).postedEdges
      = st.postedEdges.filter (fun e => entInSession st s e.1 && postInSession st s e.2) := rfl

/-- Helper: the REPLIED_TO slice of a restriction. -/
theorem restrict_repliedEdges (st : GraphState) (s : String) :
    (restrictSession s st).repliedEdges
      = st.repliedEdges.filter (fun e => postInSession st s e.1 && postInSession st s e.2) := rfl

/-- Helper: the LIKED slice of a restriction. -/
theorem restrict_likedEdges (st : GraphState) (s : String) :
    (restrictSession s st).likedEdges
      = st.likedEdges.filter (fun e => entInSession st s e.src && postInSession st s e.dst) := rfl

/-- Helper: the INITIATED slice of a restriction. -/
theorem restrict_initiatedEdges (st : GraphState) (s : String) :
    (restrictSession s st).initiatedEdges
      = st.initiatedEdges.filter (fun e => entInSession st s e.src && eventInSession st s e.dst) := rfl

/-- Helper: the TARGETED slice of a restriction. -/
theorem restrict_targetedEdges (st : GraphState) (s : String) :
    (restrictSession s st).targetedEdges
      = st.targetedEdges.filter (fun e => eventInSession st s e.src && entInSession st s e.dst) := rfl

/-- Helper: a successful entity lookup is a membership. -/
theorem mem_of_lookupEntity (st : GraphState) (nid : Nat) (n : EntityNode)
    (h : lookupEntityById st nid = some n) : n ∈ st.entities := by
  unfold lookupEntityById at h
  exact List.mem_of_find?_eq_some h

/-- Helper: a successful post lookup is a membership. -/
theorem mem_of_lookupPost (st : GraphState) (nid : Nat) (p : PostNode)
    (h : lookupPostById st nid = some p) : p ∈ st.posts := by
  unfold lookupPostById at h
  exact List.mem_of_find?_eq_some h

/-- Helper: a successful event lookup is a membership. -/
theorem mem_of_lookupEvent (st : GraphState) (nid : Nat) (v : EventNode)
    (h : lookupEventById st nid = some v) : v ∈ st.events := by
  unfold lookupEventById at h
  exact List.mem_of_find?_eq_some h

/-- Helper: the initiated-events block of the perception reads only the
session slice of the store. -/
theorem physRowsSubject_restrict (st : GraphState) (s : String) (me : EntityNode)
    (hnd : (allNodeIds st).Nodup) (hmem : me ∈ st.entities)
    (hms : (me.session_id == s) = true) :
    physRowsSubject (restrictSession s st) s me = physRowsSubject st s me := by
  have hndE := nodupIds_entities st hnd
  have hndEv := nodupIds_events st hnd
  unfold physRowsSubject
  rw [restrict_initiatedEdges]
  apply flatMap_filter_congr _ _ _ st.initiatedEdges
  · intro e he hq
    by_cases hsrc : (e.src == me.nodeId) = true
    · have hent : entInSession st s e.src = true := by
        have hteq : e.src = me.nodeId := by simpa using hsrc
        rw [hteq]
        exact entInSession_of_mem st s hndE me hmem hms
      rw [hent, Bool.true_and] at hq
      rw [if_pos hsrc]
      rw [eventInSession_eq] at hq
      cases hl : lookupEventById st e.dst with
      | none => simp only [hl]
      | some evt =>
        rw [hl] at hq
        simp only [sessFlag] at hq
        simp only [hl]
        rw [if_neg (by simp [hq])]
    · rw [if_neg hsrc]
  · intro e he hq
    simp only [Bool.and_eq_true] at hq
    by_cases hsrc : (e.src == me.nodeId) = true
    · rw [if_pos hsrc, if_pos hsrc]
      rw [lookupEvent_restrict_in st s e.dst hndEv hq.2]
      cases hl : lookupEventById st e.dst with
      | none => simp only [hl]
      | some evt =>
        simp only [hl]
        by_cases hes : (evt.session_id == s) = true
        · rw [if_pos hes, if_pos hes]
          have hevmem : evt ∈ st.events := mem_of_lookupEvent st e.dst evt hl
          congr 1
          congr 1
          rw [restrict_targetedEdges]
          apply filterMap_filter_congr _ _ _ st.targetedEdges
          · intro te hte hflag
            by_cases hsrc2 : (te.src == evt.nodeId) = true
            · have hevsrc : eventInSession st s te.src = true := by
                have hteq : te.src = evt.nodeId := by simpa using hsrc2
                rw [hteq]
                exact eventInSession_of_mem st s hndEv evt hevmem hes
              rw [hevsrc, Bool.true_and] at hflag
              rw [if_pos hsrc2]
              rw [entInSession_eq] at hflag
              cases hl2 : lookupEntityById st te.dst with
              | none => simp only [hl2]
              | some o =>
                rw [hl2] at hflag
                simp only [sessFlag] at hflag
                simp only [hl2]
                rw [if_neg (by simp [hflag])]
            · rw [if_neg hsrc2]
          · intro te hte hflag
            simp only [Bool.and_eq_true] at hflag
            by_cases hsrc2 : (te.src == evt.nodeId) = true
            · rw [if_pos hsrc2, if_pos hsrc2,
                lookupEntity_restrict_in st s te.dst hndE hflag.2]
            · rw [if_neg hsrc2, if_neg hsrc2]
        · rw [if_neg hes, if_neg hes]
    · rw [if_neg hsrc, if_neg hsrc]

/-- Helper: the targeted-events block of the perception reads only the
session slice of the store. -/
theorem physRowsObject_restrict (st : GraphState) (s : String) (me : EntityNode)
    (hnd : (allNodeIds st).Nodup) (hmem : me ∈ st.entities)
    (hms : (me.session_id == s) = true) :
    physRowsObject (restrictSession s st) s me = physRowsObject st s me := by
  have hndE := nodupIds_entities st hnd
  have hndEv := nodupIds_events st hnd
  unfold physRowsObject
  rw [restrict_targetedEdges]
  apply flatMap_filter_congr _ _ _ st.targetedEdges
  · intro e he hq
    by_cases hdst : (e.dst == me.nodeId) = true
    · have hent : entInSession st s e.dst = true := by
        have hteq : e.dst = me.nodeId := by simpa using hdst
        rw [hteq]
        exact entInSession_of_mem st s hndE me hmem hms
      rw [hent, Bool.and_true] at hq
      rw [if_pos hdst]
      rw [eventInSession_eq] at hq
      cases hl : lookupEventById st e.src with
      | none => simp only [hl]
      | some evt =>
        rw [hl] at hq
        simp only [sessFlag] at hq
        simp only [hl]
        rw [if_neg (by simp [hq])]
    · rw [if_neg hdst]
  · intro e he hq
    simp only [Bool.and_eq_true] at hq
    by_cases hdst : (e.dst == me.nodeId) = true
    · rw [if_pos hdst, if_pos hdst]
      rw [lookupEvent_restrict_in st s e.src hndEv hq.1]
      cases hl : lookupEventById st e.src with
      | none => simp only [hl]
      | some evt =>
        simp only [hl]
        by_cases hes : (evt.session_id == s) = true
        · rw [if_pos hes, if_pos hes]
          have hevmem : evt ∈ st.events := mem_of_lookupEvent st e.src evt hl
          congr 1
          congr 1
          rw [restrict_initiatedEdges]
          apply filterMap_filter_congr _ _ _ st.initiatedEdges
          · intro ie hie hflag
            by_cases hdst2 : (ie.dst == evt.nodeId) = true
            · have hevdst : eventInSession st s ie.dst = true := by
                have hteq : ie.dst = evt.nodeId := by simpa using hdst2
                rw [hteq]
                exact eventInSession_of_mem st s hndEv evt hevmem hes
              rw [hevdst, Bool.and_true] at hflag
              rw [if_pos hdst2]
              rw [entInSession_eq] at hflag
              cases hl2 : lookupEntityById st ie.src with
              | none => simp only [hl2]
              | some o =>
                rw [hl2] at hflag
                simp only [sessFlag] at hflag
                simp only [hl2]
                rw [if_neg (by simp [hflag])]
            · rw [if_neg hdst2]
          · intro ie hie hflag
            simp only [Bool.and_eq_true] at hflag
            by_cases hdst2 : (ie.dst == evt.nodeId) = true
            · rw [if_pos hdst2, if_pos hdst2,
                lookupEntity_restrict_in st s ie.src hndE hflag.1]
            · rw [if_neg hdst2, if_neg hdst2]
        · rw [if_neg hes, if_neg hes]
    · rw [if_neg hdst, if_neg hdst]

/-- Helper: the like-notification block of the perception reads only
the session slice of the store. -/
theorem notifRowsLike_restrict (st : GraphState) (s : String) (me : EntityNode)
    (hnd : (allNodeIds st).Nodup) (hmem : me ∈ st.entities)
    (hms : (me.session_id == s) = true) :
    notifRowsLike (restrictSession s st) s me = notifRowsLike st s me := by
  have hndE := nodupIds_entities st hnd
  have hndP := nodupIds_posts st hnd
  unfold notifRowsLike
  rw [restrict_postedEdges]
  apply flatMap_filter_congr _ _ _ st.postedEdges
  · intro e he hq
    by_cases h1 : (e.1 == me.nodeId) = true
    · have hent : entInSession st s e.1 = true := by
        have hteq : e.1 = me.nodeId := by simpa using h1
        rw [hteq]
        exact entInSession_of_mem st s hndE me hmem hms
      rw [hent, Bool.true_and] at hq
      rw [if_pos h1]
      rw [postInSession_eq] at hq
      cases hl : lookupPostById st e.2 with
      | none => simp only [hl]
      | some myPost =>
        rw [hl] at hq
        simp only [sessFlag] at hq
        simp only [hl]
        rw [if_neg (by simp [hq])]
    · rw [if_neg h1]
  · intro e he hq
    simp only [Bool.and_eq_true] at hq
    by_cases h1 : (e.1 == me.nodeId) = true
    · rw [if_pos h1, if_pos h1]
      rw [lookupPost_restrict_in st s e.2 hndP hq.2]
      cases hl : lookupPostById st e.2 with
      | none => simp only [hl]
      | some myPost =>
        simp only [hl]
        by_cases hps : (myPost.session_id == s) = true
        · rw [if_pos hps, if_pos hps]
          have hpmem : myPost ∈ st.posts := mem_of_lookupPost st e.2 myPost hl
          rw [restrict_likedEdges]
          apply filterMap_filter_congr _ _ _ st.likedEdges
          · intro le hle hflag
            by_cases hd : (le.dst == myPost.nodeId) = true
            · have hpd : postInSession st s le.dst = true := by
                have hteq : le.dst = myPost.nodeId := by simpa using hd
                rw [hteq]
                exact postInSession_of_mem st s hndP myPost hpmem hps
              rw [hpd, Bool.and_true] at hflag
              rw [if_pos hd]
              rw [entInSession_eq] at hflag
              cases hl2 : lookupEntityById st le.src with
              | none => simp only [hl2]
              | some actor =>
                rw [hl2] at hflag
                simp only [sessFlag] at hflag
                simp only [hl2]
                rw [if_neg (by simp [hflag])]
            · rw [if_neg hd]
          · intro le hle hflag
            simp only [Bool.and_eq_true] at hflag
            by_cases hd : (le.dst == myPost.nodeId) = true
            · rw [if_pos hd, if_pos hd,
                lookupEntity_restrict_in st s le.src hndE hflag.1]
            · rw [if_neg hd, if_neg hd]
        · rw [if_neg hps, if_neg hps]
    · rw [if_neg h1, if_neg h1]

/-- Helper: the comment-notification block of the perception reads only
the session slice of the store. -/
theorem notifRowsComment_restrict (st : GraphState) (s : String) (me : EntityNode)
    (hnd : (allNodeIds st).Nodup) (hmem : me ∈ st.entities)
    (hms : (me.session_id == s) = true) :
    notifRowsComment (restrictSession s st) s me = notifRowsComment st s me := by
  have hndE := nodupIds_entities st hnd
  have hndP := nodupIds_posts st hnd
  unfold notifRowsComment
  rw [restrict_postedEdges]
  apply flatMap_filter_congr _ _ _ st.postedEdges
  · intro e he hq
    by_cases h1 : (e.1 == me.nodeId) = true
    · have hent : entInSession st s e.1 = true := by
        have hteq : e.1 = me.nodeId := by simpa using h1
        rw [hteq]
        exact entInSession_of_mem st s hndE me hmem hms
      rw [hent, Bool.true_and] at hq
      rw [if_pos h1]
      rw [postInSession_eq] at hq
      cases hl : lookupPostById st e.2 with
      | none => simp only [hl]
      | some myPost =>
        rw [hl] at hq
        simp only [sessFlag] at hq
        simp only [hl]
        rw [if_neg (by simp [hq])]
    · rw [if_neg h1]
  · intro e he hq
    simp only [Bool.and_eq_true] at hq
    by_cases h1 : (e.1 == me.nodeId) = true
    · rw [if_pos h1, if_pos h1]
      rw [lookupPost_restrict_in st s e.2 hndP hq.2]
      cases hl : lookupPostById st e.2 with
      | none => simp only [hl]
      | some myPost =>
        simp only [hl]
        by_cases hps : (myPost.session_id == s) = true
        · rw [if_pos hps, if_pos hps]
          have hpmem : myPost ∈ st.posts := mem_of_lookupPost st e.2 myPost hl
          rw [restrict_repliedEdges]
          apply flatMap_filter_congr _ _ _ st.repliedEdges
          · intro re hre hflag
            by_cases hd : (re.2 == myPost.nodeId) = true
            · have hpd : postInSession st s re.2 = true := by
                have hteq : re.2 = myPost.nodeId := by simpa using hd
                rw [hteq]
                exact postInSession_of_mem st s hndP myPost hpmem hps
              rw [hpd, Bool.and_true] at hflag
              rw [if_pos hd]
              rw [postInSession_eq] at hflag
              cases hl2 : lookupPostById st re.1 with
              | none => simp only [hl2]
              | some cm =>
                rw [hl2] at hflag
                simp only [sessFlag] at hflag
                simp only [hl2]
                rw [if_neg (by simp [hflag])]
            · rw [if_neg hd]
          · intro re hre hflag
            simp only [Bool.and_eq_true] at hflag
            by_cases hd : (re.2 == myPost.nodeId) = true
            · rw [if_pos hd, if_pos hd,
                lookupPost_restrict_in st s re.1 hndP hflag.1]
              cases hl2 : lookupPostById st re.1 with
              | none => simp only [hl2]
              | some cm =>
                simp only [hl2]
                by_cases hcc : (cm.session_id == s && cm.ptype == "COMMENT") = true
                · rw [if_pos hcc, if_pos hcc]
                  have hcmem : cm ∈ st.posts := mem_of_lookupPost st re.1 cm hl2
                  have hcs : (cm.session_id == s) = true := by
                    simp only [Bool.and_eq_true] at hcc
                    exact hcc.1
                  apply filterMap_filter_congr _ _ _ st.postedEdges
                  · intro ae hae hflag2
                    by_cases ha : (ae.2 == cm.nodeId) = true
                    · have hpd2 : postInSession st s ae.2 = true := by
                        have hteq : ae.2 = cm.nodeId := by simpa using ha
                        rw [hteq]
                        exact postInSession_of_mem st s hndP cm hcmem hcs
                      rw [hpd2, Bool.and_true] at hflag2
                      rw [if_pos ha]
                      rw [entInSession_eq] at hflag2
                      cases hl3 : lookupEntityById st ae.1 with
                      | none => simp only [hl3]
                      | some actor =>
                        rw [hl3] at hflag2
                        simp only [sessFlag] at hflag2
                        simp only [hl3]
                        rw [if_neg (by simp [hflag2])]
                    · rw [if_neg ha]
                  · intro ae hae hflag2
                    simp only [Bool.and_eq_true] at hflag2
                    by_cases ha : (ae.2 == cm.nodeId) = true
                    · rw [if_pos ha, if_pos ha,
                        lookupEntity_restrict_in st s ae.1 hndE hflag2.1]
                    · rw [if_neg ha, if_neg ha]
                · rw [if_neg hcc, if_neg hcc]
            · rw [if_neg hd, if_neg hd]
        · rw [if_neg hps, if_neg hps]
    · rw [if_neg h1, if_neg h1]

/-- Helper: the comment subquery of the timeline reads only the session
slice of the store: by session closure every REPLIED_TO path backwards
from a session post stays inside the session. -/
theorem timelineComments_restrict (st : GraphState) (s : String) (post : PostNode)
    (hnd : (allNodeIds st).Nodup) (hsc : sessionClosed st = true)
    (hpmem : post ∈ st.posts) (hps : (post.session_id == s) = true) :
    timelineComments (restrictSession s st) s post = timelineComments st s post := by
  have hndE := nodupIds_entities st hnd
  have hndP := nodupIds_posts st hnd
  have hppost : postInSession st s post.nodeId = true :=
    postInSession_of_mem st s hndP post hpmem hps
  unfold timelineComments
  congr 1
  rw [restrict_repliedEdges,
    pathsTo_filter_inv (fun nid => postInSession st s nid) _ st.repliedEdges post.nodeId
      (fun e he hp2 => ⟨by
        rw [closed_replied_prop st s hsc e he hp2, Bool.true_and]
        simpa using hp2,
        closed_replied_prop st s hsc e he hp2⟩) hppost]
  apply flatMap_congr_mem
  intro q hq
  unfold pathsTo at hq
  have hmemprop := pathsToFuel_mem_prop (fun nid => postInSession st s nid)
    st.repliedEdges.length st.repliedEdges post.nodeId
    (fun e he hp2 => closed_replied_prop st s hsc e he hp2) hppost q hq
  rw [lookupPost_restrict_in st s q.1 hndP hmemprop.1]
  cases hl : lookupPostById st q.1 with
  | none => simp only [hl]
  | some cm =>
    simp only [hl]
    by_cases hcc : (cm.session_id == s && cm.ptype == "COMMENT") = true
    · rw [if_pos hcc, if_pos hcc]
      have hcmem : cm ∈ st.posts := mem_of_lookupPost st q.1 cm hl
      have hcs : (cm.session_id == s) = true := by
        simp only [Bool.and_eq_true] at hcc
        exact hcc.1
      rw [lookupPost_restrict_in st s q.2.1 hndP hmemprop.2]
      congr 1
      congr 1
      rw [restrict_postedEdges]
      apply filterMap_filter_congr _ _ _ st.postedEdges
      · intro ae hae hflag
        by_cases ha : (ae.2 == cm.nodeId) = true
        · have hpd : postInSession st s ae.2 = true := by
            have hteq : ae.2 = cm.nodeId := by simpa using ha
            rw [hteq]
            exact postInSession_of_mem st s hndP cm hcmem hcs
          rw [hpd, Bool.and_true] at hflag
          rw [if_pos ha]
          rw [entInSession_eq] at hflag
          cases hl2 : lookupEntityById st ae.1 with
          | none => simp only [hl2]
          | some a =>
            rw [hl2] at hflag
            simp only [sessFlag] at hflag
            simp only [hl2]
            rw [if_neg (by simp [hflag])]
        · rw [if_neg ha]
      · intro ae hae hflag
        simp only [Bool.and_eq_true] at hflag
        by_cases ha : (ae.2 == cm.nodeId) = true
        · rw [if_pos ha, if_pos ha,
            lookupEntity_restrict_in st s ae.1 hndE hflag.1]
        · rw [if_neg ha, if_neg ha]
    · rw [if_neg hcc, if_neg hcc]

/-- Helper: the post/author rows of the timeline read only the session
slice of the store. -/
theorem timelinePostRows_restrict (st : GraphState) (s : String)
    (hnd : (allNodeIds st).Nodup) :
    (restrictSession s st).posts.flatMap (fun p =>
      if p.session_id == s && p.ptype == "ORIGINAL" then
        (optionalRows ((restrictSession s st).postedEdges.filterMap (fun ae =>
          if ae.2 == p.nodeId then
            match lookupEntityById (restrictSession s st) ae.1 with
            | some a =>
              if a.labels.contains "Entity" && a.session_id == s then some a else none
            | none => none
          else none))).map (fun author => (p, author))
      else [])
    = st.posts.flatMap (fun p =>
      if p.session_id == s && p.ptype == "ORIGINAL" then
        (optionalRows (st.postedEdges.filterMap (fun ae =>
          if ae.2 == p.nodeId then
            match lookupEntityById st ae.1 with
            | some a =>
              if a.labels.contains "Entity" && a.session_id == s then some a else none
            | none => none
          else none))).map (fun author => (p, author))
      else []) := by
  have hndE := nodupIds_entities st hnd
  have hndP := nodupIds_posts st hnd
  rw [restrict_posts]
  apply flatMap_filter_congr _ _ _ st.posts
  · intro p hp hq
    rw [if_neg (by simp [hq])]
  · intro p hp hq
    by_cases hcond : (p.session_id == s && p.ptype == "ORIGINAL") = true
    · rw [if_pos hcond, if_pos hcond]
      congr 1
      congr 1
      rw [restrict_postedEdges]
      apply filterMap_filter_congr _ _ _ st.postedEdges
      · intro ae hae hflag
        by_cases ha : (ae.2 == p.nodeId) = true
        · have hpd : postInSession st s ae.2 = true := by
            have hteq : ae.2 = p.nodeId := by simpa using ha
            rw [hteq]
            exact postInSession_of_mem st s hndP p hp hq
          rw [hpd, Bool.and_true] at hflag
          rw [if_pos ha]
          rw [entInSession_eq] at hflag
          cases hl2 : lookupEntityById st ae.1 with
          | none => simp only [hl2]
          | some a =>
            rw [hl2] at hflag
            simp only [sessFlag] at hflag
            simp only [hl2]
            rw [if_neg (by simp [hflag])]
        · rw [if_neg ha]
      · intro ae hae hflag
        simp only [Bool.and_eq_true] at hflag
        by_cases ha : (ae.2 == p.nodeId) = true
        · rw [if_pos ha, if_pos ha,
            lookupEntity_restrict_in st s ae.1 hndE hflag.1]
        · rw [if_neg ha, if_neg ha]
    · rw [if_neg hcond, if_neg hcond]

/-- Helper: the timeline section of the perception reads only the
session slice of the store. -/
theorem timelinePosts_restrict (st : GraphState) (s : String)
    (hnd : (allNodeIds st).Nodup) (hsc : sessionClosed st = true) :
    timelinePosts (restrictSession s st) s = timelinePosts st s := by
  unfold timelinePosts
  rw [timelinePostRows_restrict st s hnd]
  dsimp only
  apply List.map_congr_left
  intro r hr
  have hr2 := List.mem_of_mem_take hr
  unfold sortDescBy at hr2
  have hr3 := (mem_sortAsc _ r _).mp hr2
  rcases List.mem_flatMap.mp hr3 with ⟨p, hp, hbody⟩
  by_cases hcond : (p.session_id == s && p.ptype == "ORIGINAL") = true
  · rw [if_pos hcond] at hbody
    rcases List.mem_map.mp hbody with ⟨author, hau, rfl⟩
    simp only [Bool.and_eq_true] at hcond
    dsimp only
    rw [timelineComments_restrict st s p hnd hsc hp hcond.1]
  · rw [if_neg hcond] at hbody
    simp at hbody

/-- Helper: on a well-formed store the whole perception payload reads
only the session slice: computing it on the store restricted to the
query's session gives the same three sections. -/
theorem loadPerception_restrict (st : GraphState) (s agent : String)
    (hwf : graphWellFormed st = true) :
    loadPerceptionPayload (restrictSession s st) s agent
      = loadPerceptionPayload st s agent := by
  obtain ⟨hnd, hsc⟩ := graphWellFormed_props st hwf
  unfold loadPerceptionPayload
  have hfind : findEntity (restrictSession s st) s agent = findEntity st s agent := by
    unfold findEntity
    rw [restrict_entities]
    apply find?_filter_of_imp _ _ st.entities
    intro x hx hpx
    simp only [Bool.and_eq_true] at hpx
    exact hpx.1.2
  rw [hfind]
  cases hme : findEntity st s agent with
  | none => rfl
  | some me =>
    have hmemme : me ∈ st.entities := by
      unfold findEntity at hme
      exact List.mem_of_find?_eq_some hme
    have hpred := by
      unfold findEntity at hme
      exact List.find?_some hme
    simp only [Bool.and_eq_true] at hpred
    dsimp only
    congr 1
    · unfold physicalEvents
      rw [physRowsSubject_restrict st s me hnd hmemme hpred.1.2,
        physRowsObject_restrict st s me hnd hmemme hpred.1.2]
    · unfold socialNotifications
      rw [notifRowsLike_restrict st s me hnd hmemme hpred.1.2,
        notifRowsComment_restrict st s me hnd hmemme hpred.1.2]
    · exact timelinePosts_restrict st s hnd hsc

/-- C3: every modelled graph-store operation invoked with session id
`s` stays within that session.  On a store whose node ids are below the
id counter and which is well formed (distinct node ids, session-closed
edges), the three social writes (`create_post`, `create_comment`,
`like_post`) leave the slice of any other session `s2` untouched, and
the perception read computes the same payload on the store restricted
to its own session's slice as on the full store — no operation observes
or mutates another session's data. -/
theorem graphStore_session_isolation (st : GraphState)
    (s s2 a t content pid ts agent : String)
    (hs : ¬ s = s2) (hf : nextIdFresh st = true) (hwf : graphWellFormed st = true) :
    restrictSession s2 (createPost st s a content pid ts).2 = restrictSession s2 st
    ∧ restrictSession s2 (createCommentState st s a t content pid ts) = restrictSession s2 st
    ∧ restrictSession s2 (likePostState st s a t ts) = restrictSession s2 st
    ∧ loadPerceptionPayload (restrictSession s st) s agent
        = loadPerceptionPayload st s agent :=
  ⟨createPost_frame st s a content pid ts s2 hs hf,
    createComment_frame st s a t content pid ts s2 hs hf,
    likePost_frame st s a t ts s2 hs (graphWellFormed_props st hwf).1,
    loadPerception_restrict st s agent hwf⟩

/-- Witness for C3 on the concrete two-session store. -/
theorem graphStore_session_isolation_witness :
    (¬ "s1" = "s9") ∧ nextIdFresh twoSessionStore = true
    ∧ graphWellFormed twoSessionStore = true
    ∧ (restrictSession "s9" (createPost twoSessionStore "s1" "alice" "hello" "pn" "T9").2
        = restrictSession "s9" twoSessionStore
      ∧ restrictSession "s9" (createCommentState twoSessionStore "s1" "alice" "p1" "hello" "pn" "T9")
        = restrictSession "s9" twoSessionStore
      ∧ restrictSession "s9" (likePostState twoSessionStore "s1" "alice" "p1" "T9")
        = restrictSession "s9" twoSessionStore
      ∧ loadPerceptionPayload (restrictSession "s1" twoSessionStore) "s1" "alice"
        = loadPerceptionPayload twoSessionStore "s1" "alice") :=
  ⟨by decide, by decide, by decide,
    graphStore_session_isolation twoSessionStore "s1" "s9" "alice" "p1" "hello" "pn" "T9" "alice"
      (by decide) (by decide) (by decide)⟩
